import Mathlib

/-!
Verification of the bulk batch-execution engine of the clickup-mcp repository
(`src/clickup_mcp/services/clickup/concurrency_utils.py` and
`src/clickup_mcp/services/clickup/bulk_service.py`).

The Python code is shallowly embedded: the processor supplied to the engine is
modelled as a deterministic oracle `Nat → α → Nat → Except String β` mapping
(global item index, item, 0-based attempt number) to either a result or the
message of the exception raised by that invocation.  The cooperative scheduler
is sequentialised: `asyncio.gather` returns its results in the order of the
task list it was given, regardless of the order in which the tasks complete,
so the per-chunk outcome loop of `process_batch` observes outcomes in input
order; the nondeterministic completion schedule is threaded through as an
explicit argument that — exactly as with `asyncio.gather` — does not influence
the returned list.  Real-time waits (`asyncio.sleep`) are not executed; the
wait computation of `_run_single` (lines 89-93) is modelled separately by
`waitDelay`/`jitterSet`.  The capacity semaphore only limits simultaneous
in-flight work and has no influence on any value computed here, so it is not
modelled.  Every processor and progress-callback invocation is recorded in an
explicit trace so that claims about what was or was not invoked are statable.
-/

namespace ClickupMCP

variable {α β τ : Type}

/-- Snapshot passed to the progress callback by `emit_progress`
(concurrency_utils.py lines 117-128). -/
structure ProgressSnapshot where
  completed : Nat
  success : Nat
  failure : Nat
  total : Nat
deriving DecidableEq, Repr

/-- Totals dictionary of a `BatchResult` (concurrency_utils.py line 25). -/
structure Totals where
  success : Nat
  failure : Nat
  total : Nat
deriving DecidableEq, Repr

/-- Failure dictionary produced by `_run_single` on retry exhaustion
(concurrency_utils.py line 88): `{"item": item, "error": str(exc), "index": index}`. -/
structure FailureRecord (α : Type) where
  item : α
  error : String
  index : Nat
deriving DecidableEq, Repr

/-- Aggregate result returned from `process_batch` (concurrency_utils.py lines 19-25). -/
structure BatchResult (α β : Type) where
  successful : List β
  failed : List (FailureRecord α)
  totals : Totals
deriving DecidableEq, Repr

/-- Runtime options controlling batch execution (concurrency_utils.py lines 33-43).
The progress callback is carried as a separate argument of `process_batch` in
this embedding; `retry_delay` is represented exactly as a rational. -/
structure BatchOptions where
  batch_size : Nat := 10
  concurrency : Nat := 3
  retry_count : Nat := 3
  retry_delay : ℚ := 1
  exponential_backoff : Bool := true
  continue_on_error : Bool := true
deriving DecidableEq, Repr

/-- Caller-supplied overrides mapping handed to `BatchOptions.merged`
(concurrency_utils.py lines 45-57); an absent key is `none`. -/
structure BatchOverrides where
  batch_size : Option Int := none
  concurrency : Option Int := none
  retry_count : Option Int := none
  retry_delay : Option ℚ := none
  exponential_backoff : Option Bool := none
  continue_on_error : Option Bool := none
deriving DecidableEq, Repr

/-- Merge caller overrides onto the defaults, clamping numeric fields to their
minima, as `BatchOptions.merged` does (concurrency_utils.py lines 45-57).
`none` plays the role of a missing/empty overrides mapping. -/
def BatchOptions.merged (o : BatchOptions) (ov : Option BatchOverrides) : BatchOptions :=
  match ov with
  | none => o
  | some v =>
    { batch_size := (max 1 (v.batch_size.getD (o.batch_size : Int))).toNat
      concurrency := (max 1 (v.concurrency.getD (o.concurrency : Int))).toNat
      retry_count := (max 0 (v.retry_count.getD (o.retry_count : Int))).toNat
      retry_delay := max 0 (v.retry_delay.getD o.retry_delay)
      exponential_backoff := v.exponential_backoff.getD o.exponential_backoff
      continue_on_error := v.continue_on_error.getD o.continue_on_error }

/-- Default options: `BatchOptions()` in the source. -/
def BatchOptions.defaults : BatchOptions := {}

/-- Chunker `_chunked` (concurrency_utils.py lines 66-68): contiguous slices of
`size` elements.  Written with an explicit fuel argument (bounded by the list
length) so that the definition is structurally recursive; `chunkedGo` consumes
at least one element per step whenever `0 < size`, hence
`fuel = items.length` always suffices. -/
def chunkedGo (size : Nat) : Nat → List α → List (List α)
  | _, [] => []
  | 0, _ :: _ => []
  | fuel + 1, x :: xs =>
    ((x :: xs).take size) :: chunkedGo size fuel ((x :: xs).drop size)

/-- Chunker entry point, matching `_chunked(items, size)` for `0 < size`
(Python `range` with step `0` raises and is never exercised by the engine,
whose merged `batch_size` is at least 1). -/
def chunked (items : List α) (size : Nat) : List (List α) :=
  chunkedGo size items.length items

/-- Single-item retry loop `_run_single` (concurrency_utils.py lines 71-93),
instrumented with the list of `(index, attempt)` pairs at which the processor
was invoked.  `remaining` counts the retries still allowed
(`retry_count - attempt` in the source); on an invocation failure with no
retries left the failure dictionary is returned. -/
def runSingleGo (proc : Nat → α → Nat → Except String β) (index : Nat) (item : α) :
    Nat → Nat → (β ⊕ FailureRecord α) × List (Nat × Nat)
  | a, 0 =>
    match proc index item a with
    | .ok v => (.inl v, [(index, a)])
    | .error e => (.inr ⟨item, e, index⟩, [(index, a)])
  | a, r + 1 =>
    match proc index item a with
    | .ok v => (.inl v, [(index, a)])
    | .error _ =>
      let p := runSingleGo proc index item (a + 1) r
      (p.1, (index, a) :: p.2)

/-- Run one item through `_run_single` with `retry_count` retries, starting at
attempt 0; returns the outcome plus the invocation trace. -/
def run_single (proc : Nat → α → Nat → Except String β) (retry_count : Nat)
    (index : Nat) (item : α) : (β ⊕ FailureRecord α) × List (Nat × Nat) :=
  runSingleGo proc index item 0 retry_count

/-- Base wait computed by `_run_single` before the retry numbered `attempt`
(1-indexed), concurrency_utils.py lines 89-91: `wait_delay = delay`, replaced
by `delay * 2 ** (attempt - 1)` when exponential backoff is on and the delay
is positive. -/
def waitDelay (opts : BatchOptions) (attempt : Nat) : ℚ :=
  if opts.exponential_backoff ∧ 0 < opts.retry_delay then
    opts.retry_delay * 2 ^ (attempt - 1)
  else
    opts.retry_delay

/-- Set of jitter values `random.uniform(0, wait_delay * 0.25)` can produce
(concurrency_utils.py line 92); a zero (falsy) `wait_delay` short-circuits to
exactly `0.0`. -/
def jitterSet (w : ℚ) : Set ℚ :=
  if w ≠ 0 then Set.Icc 0 (w * (1 / 4)) else {0}

/-- Errors that can escape `process_batch`: the `BATCH_ABORTED`
`ClickUpServiceError` of concurrency_utils.py lines 154-162 (whose context
carries the failed and successful lists accumulated so far), or an exception
propagating out of the progress callback through `emit_progress`, which has no
handler around it. -/
inductive RunError (α β : Type) where
  | batchAborted (failed : List (FailureRecord α)) (successful : List β)
  | callbackFailure (msg : String)
deriving DecidableEq, Repr

/-- Observable output of one `process_batch` call: its result or raised error,
the `(index, attempt)` trace of processor invocations, and the snapshots the
progress callback was invoked with. -/
structure RunOutput (α β : Type) where
  outcome : Except (RunError α β) (BatchResult α β)
  invocations : List (Nat × Nat)
  snapshots : List ProgressSnapshot
deriving Repr

/-- Mutable state of the `process_batch` loops: the accumulating result lists
and counters, the `halt` flag, plus the instrumentation traces and the pending
callback exception. -/
structure LoopState (α β : Type) where
  successful : List β
  failed : List (FailureRecord α)
  success : Nat
  failure : Nat
  completed : Nat
  halt : Bool
  callbackError : Option String
  invocations : List (Nat × Nat)
  snapshots : List ProgressSnapshot
deriving DecidableEq, Repr

/-- Initial loop state of a `process_batch` call. -/
def initState : LoopState α β :=
  { successful := [], failed := [], success := 0, failure := 0, completed := 0
    halt := false, callbackError := none, invocations := [], snapshots := [] }

/-- Model of `asyncio.gather`: the aggregated result list is in the order of
the supplied awaitables, irrespective of the completion order recorded in
`completionOrder`. -/
def gather (completionOrder : List Nat) (tasks : List τ) : List τ :=
  let _ := completionOrder
  tasks

/-- Body of the `for outcome in await asyncio.gather(*tasks)` loop
(concurrency_utils.py lines 138-150) for a single outcome: bump `completed`,
append to `successful` or `failed` updating the totals, set `halt` on a
failure when `continue_on_error` is false, then run `emit_progress`, recording
the snapshot the callback was invoked with and any exception it raised. -/
def stepOutcome (cb : Option (ProgressSnapshot → Except String Unit)) (total : Nat)
    (coe : Bool) (st : LoopState α β) (o : β ⊕ FailureRecord α) : LoopState α β :=
  let st1 : LoopState α β :=
    match o with
    | .inl v =>
      { st with successful := st.successful ++ [v], success := st.success + 1
                completed := st.completed + 1 }
    | .inr f =>
      { st with failed := st.failed ++ [f], failure := st.failure + 1
                completed := st.completed + 1, halt := st.halt || !coe }
  match cb with
  | none => st1
  | some f =>
    let snap : ProgressSnapshot :=
      ⟨st1.completed, st1.success, st1.failure, total⟩
    match f snap with
    | .ok _ => { st1 with snapshots := st1.snapshots ++ [snap] }
    | .error m =>
      { st1 with snapshots := st1.snapshots ++ [snap], callbackError := some m }

/-- Inner outcome loop of `process_batch`: outcomes are consumed in the order
`asyncio.gather` returned them; after each one the loop stops if `halt` was
set (`break` at line 151-152) or the callback raised (the exception
propagates). -/
def processOutcomes (cb : Option (ProgressSnapshot → Except String Unit)) (total : Nat)
    (coe : Bool) : List (β ⊕ FailureRecord α) → LoopState α β → LoopState α β
  | [], st => st
  | o :: rest, st =>
    let st2 := stepOutcome cb total coe st o
    if st2.halt || st2.callbackError.isSome then st2
    else processOutcomes cb total coe rest st2

/-- Outer chunk loop of `process_batch` (concurrency_utils.py lines 131-152):
for each chunk, unless halted or unwinding a callback exception, all items of
the chunk are dispatched (each invocation is traced), the outcomes are
gathered in task order, and the inner loop folds them into the state.
`bstart = (batch_index - 1) * batch_size` is the chunk's global start index. -/
def processChunks (proc : Nat → α → Nat → Except String β)
    (cb : Option (ProgressSnapshot → Except String Unit)) (total : Nat) (coe : Bool)
    (retry_count batch_size : Nat) (sched : Nat → List Nat) :
    List (List α) → Nat → Nat → LoopState α β → LoopState α β
  | [], _, _, st => st
  | chunk :: rest, bIdx, bstart, st =>
    if st.halt || st.callbackError.isSome then st
    else
      let runs := (chunk.enumFrom bstart).map fun p => run_single proc retry_count p.1 p.2
      let st1 := { st with invocations := st.invocations ++ (runs.map Prod.snd).flatten }
      let st2 := processOutcomes cb total coe (gather (sched bIdx) (runs.map Prod.fst)) st1
      processChunks proc cb total coe retry_count batch_size sched rest (bIdx + 1)
        (bstart + batch_size) st2

/-- The batch coordinator `process_batch` (concurrency_utils.py lines 96-164).
`ov` is the caller's options mapping (merged onto the defaults on entry), `cb`
the progress callback, `sched` the nondeterministic per-chunk completion
schedule seen by `asyncio.gather`.  An empty input returns the zero result
without dispatching anything; otherwise the chunk loop runs and, at the end, a
pending callback exception propagates first, then the `BATCH_ABORTED` error is
raised when `continue_on_error` is false and something failed, else the
accumulated `BatchResult` is returned. -/
def process_batch (proc : Nat → α → Nat → Except String β)
    (ov : Option BatchOverrides)
    (cb : Option (ProgressSnapshot → Except String Unit))
    (sched : Nat → List Nat) (items : List α) : RunOutput α β :=
  let total := items.length
  match items with
  | [] => { outcome := .ok ⟨[], [], ⟨0, 0, total⟩⟩, invocations := [], snapshots := [] }
  | _ :: _ =>
    let opts := BatchOptions.defaults.merged ov
    let st := processChunks proc cb total opts.continue_on_error opts.retry_count
      opts.batch_size sched (chunked items opts.batch_size) 1 0 initState
    match st.callbackError with
    | some m => { outcome := .error (.callbackFailure m)
                  invocations := st.invocations, snapshots := st.snapshots }
    | none =>
      if !st.failed.isEmpty && !opts.continue_on_error then
        { outcome := .error (.batchAborted st.failed st.successful)
          invocations := st.invocations, snapshots := st.snapshots }
      else
        { outcome := .ok ⟨st.successful, st.failed, ⟨st.success, st.failure, total⟩⟩
          invocations := st.invocations, snapshots := st.snapshots }

/-- Scalar JSON-ish value stored in a task entry mapping.  Collection values
(lists of tags/assignees) are not represented; the only effect of the source's
`list(...)` coercion on represented values is the identity, see
`build_create_payload`. -/
inductive Val where
  | vnull
  | vstr (s : String)
  | vint (n : Int)
  | vbool (b : Bool)
deriving DecidableEq, Repr

/-- Python truthiness of a `Val` (`if value:`). -/
def Val.truthy : Val → Bool
  | .vnull => false
  | .vstr s => !(s == "")
  | .vint n => !(n == 0)
  | .vbool b => b

/-- Python `str(value)` for a `Val`. -/
def Val.toStr : Val → String
  | .vnull => "None"
  | .vstr s => s
  | .vint n => toString n
  | .vbool b => if b then "True" else "False"

/-- Task entry: the `Mapping[str, Any]` describing one bulk item, as an
association list over its keys. -/
abbrev Entry : Type := List (String × Val)

/-- Error raised by the service layer: a `ClickUpServiceError` with its message
and code (bulk_service.py / concurrency_utils.py lines 10-16).  `str(exc)` of
such an error is its message. -/
structure SvcError where
  message : String
  code : String
deriving DecidableEq, Repr

/-- Helper `_coalesce_entry_value` (bulk_service.py lines 481-487): the first
key present in the entry whose value is neither `None` nor the empty string. -/
def coalesce_entry_value (entry : Entry) : List String → Option Val
  | [] => none
  | k :: ks =>
    match List.lookup k entry with
    | some v => if v = .vnull ∨ v = .vstr "" then coalesce_entry_value entry ks else some v
    | none => coalesce_entry_value entry ks

/-- Per-entry list resolution `_resolve_list_for_entry` (bulk_service.py lines
295-318).  `resolveList` stands for `client.resolve_list_id` with the team
already bound; an exception it raises propagates unwrapped.  When no entry
field and no default yields a list, the `INVALID_PARAMETER`
`ClickUpServiceError` of line 314 is raised. -/
def resolve_list_for_entry (resolveList : String → Except SvcError String)
    (entry : Entry) (default_list_id : Option String) : Except SvcError String :=
  let list_id := coalesce_entry_value entry ["listId", "list_id"]
  if (list_id.map Val.truthy).getD false then
    .ok ((list_id.getD .vnull).toStr)
  else
    let list_name := coalesce_entry_value entry ["listName", "list_name"]
    if (list_name.map Val.truthy).getD false then
      (resolveList ((list_name.getD .vnull).toStr)).map id
    else
      match default_list_id with
      | some d =>
        if d ≠ "" then .ok d
        else .error ⟨"Each task must specify a list identifier when no default list is provided.",
          "INVALID_PARAMETER"⟩
      | none =>
        .error ⟨"Each task must specify a list identifier when no default list is provided.",
          "INVALID_PARAMETER"⟩

/-- Helper `_assign_if_present` (bulk_service.py lines 406-415): copy the first
present-and-non-empty source key into the payload under `target`. -/
def assign_if_present (payload : Entry) (entry : Entry) (target : String)
    (sources : List String) : Entry :=
  match coalesce_entry_value entry sources with
  | some v => payload ++ [(target, v)]
  | none => payload

/-- Payload builder `_build_create_payload` (bulk_service.py lines 376-404).
A falsy `name` raises the `INVALID_PARAMETER` `ClickUpServiceError` of line
378; otherwise the payload starts with `{"name": str(name)}` and the optional
fields are copied in source order.  On the scalar values representable here
the `list(...)` coercion of `tags`/`assignees` is the identity. -/
def build_create_payload (entry : Entry) : Except SvcError Entry :=
  let name := coalesce_entry_value entry ["name"]
  if !((name.map Val.truthy).getD false) then
    .error ⟨"Task creation entry requires a name field.", "INVALID_PARAMETER"⟩
  else
    let payload : Entry := [("name", .vstr ((name.getD .vnull).toStr))]
    let payload := assign_if_present payload entry "description" ["description"]
    let payload := assign_if_present payload entry "markdown_description"
      ["markdown_description", "markdownDescription"]
    let payload := assign_if_present payload entry "status" ["status"]
    let payload := assign_if_present payload entry "priority" ["priority"]
    let payload := assign_if_present payload entry "parent" ["parent"]
    let payload :=
      match coalesce_entry_value entry ["tags"] with
      | some v => payload ++ [("tags", v)]
      | none => payload
    let payload :=
      match coalesce_entry_value entry ["assignees"] with
      | some v => payload ++ [("assignees", v)]
      | none => payload
    let payload := assign_if_present payload entry "due_date" ["due_date", "dueDate"]
    let payload := assign_if_present payload entry "start_date" ["start_date", "startDate"]
    let payload :=
      match coalesce_entry_value entry ["custom_task_id", "customTaskId", "customId", "custom_id"] with
      | some v => if v.truthy then payload ++ [("custom_id", .vstr v.toStr)] else payload
      | none => payload
    let payload :=
      match coalesce_entry_value entry ["notify_all", "notifyAll"] with
      | some v => payload ++ [("notify_all", .vbool v.truthy)]
      | none => payload
    .ok payload

/-- Per-item create operation `_create_task` (bulk_service.py lines 220-234):
resolve the target list, build the payload, then issue the single external
call; `request` stands for `client.request_checked` with the team bound, and
the response is returned as an opaque `Val`. -/
def create_task (resolveList : String → Except SvcError String)
    (request : String → String → Entry → Except SvcError Val)
    (entry : Entry) (default_list_id : Option String) : Except SvcError Val := do
  let list_id ← resolve_list_for_entry resolveList entry default_list_id
  let payload ← build_create_payload entry
  request "POST" ("/list/" ++ list_id ++ "/task") payload

/-- Call-level default-list resolution `_resolve_default_list` (bulk_service.py
lines 159-181): an explicit id wins, a name is resolved with resolver failures
wrapped as `NOT_FOUND`, and neither yields no default. -/
def resolve_default_list (resolveList : String → Except SvcError String)
    (list_id list_name : Option String) : Except SvcError (Option String) :=
  if (list_id.map (· != "")).getD false then
    .ok (some (list_id.getD ""))
  else if (list_name.map (· != "")).getD false then
    match resolveList (list_name.getD "") with
    | .ok r => .ok (some r)
    | .error _ =>
      .error ⟨"Unable to resolve list name provided for bulk operation.", "NOT_FOUND"⟩
  else
    .ok none

/-- The bulk create service call `BulkService.create_bulk_tasks`
(bulk_service.py lines 45-69): the team and the default list are resolved once
at call level — errors there are raised to the caller — and each entry is then
processed by a closure over `_create_task`, whose exceptions (structural or
remote) are caught by `_run_single` inside the coordinator.  `ensureTeam`
stands for `self._ensure_team`; the logging-only callback wrapper of
`_prepare_options` is omitted and the caller's callback is passed through. -/
def create_bulk_tasks (ensureTeam : Except SvcError (Option Int))
    (resolveList : String → Except SvcError String)
    (request : String → String → Entry → Except SvcError Val)
    (entries : List Entry) (default_list_id default_list_name : Option String)
    (ov : Option BatchOverrides)
    (cb : Option (ProgressSnapshot → Except String Unit))
    (sched : Nat → List Nat) : Except SvcError (RunOutput Entry Val) := do
  let _ ← ensureTeam
  let dl ← resolve_default_list resolveList default_list_id default_list_name
  .ok (process_batch
    (fun _ entry _ => (create_task resolveList request entry dl).mapError SvcError.message)
    ov cb sched entries)

/-- Successful outcomes of a list, in order. -/
def leftsOf (outs : List (β ⊕ FailureRecord α)) : List β :=
  outs.filterMap Sum.getLeft?

/-- Failure outcomes of a list, in order. -/
def rightsOf (outs : List (β ⊕ FailureRecord α)) : List (FailureRecord α) :=
  outs.filterMap Sum.getRight?

/-- Outcomes of running each indexed entry through `run_single`. -/
def outcomesOf (proc : Nat → α → Nat → Except String β) (rc : Nat)
    (entries : List (Nat × α)) : List (β ⊕ FailureRecord α) :=
  entries.map fun p => (run_single proc rc p.1 p.2).1

/-- Processor invocation trace of running each indexed entry through
`run_single`. -/
def logsOf (proc : Nat → α → Nat → Except String β) (rc : Nat)
    (entries : List (Nat × α)) : List (Nat × Nat) :=
  (entries.map fun p => (run_single proc rc p.1 p.2).2).flatten

/-- The sequence of progress snapshots produced while folding the given
outcomes, starting from the given completed/success/failure counters. -/
def snapshotsFrom (total : Nat) :
    Nat → Nat → Nat → List (β ⊕ FailureRecord α) → List ProgressSnapshot
  | _, _, _, [] => []
  | c, s, f, .inl _ :: rest =>
    ⟨c + 1, s + 1, f, total⟩ :: snapshotsFrom total (c + 1) (s + 1) f rest
  | c, s, f, .inr _ :: rest =>
    ⟨c + 1, s, f + 1, total⟩ :: snapshotsFrom total (c + 1) s (f + 1) rest

/-- Snapshot trace actually recorded: empty when no callback is installed. -/
def cbTrace (cb : Option (ProgressSnapshot → Except String Unit))
    (snaps : List ProgressSnapshot) : List ProgressSnapshot :=
  match cb with
  | none => []
  | some _ => snaps

/-- The callback never raises. -/
def cbOk (cb : Option (ProgressSnapshot → Except String Unit)) : Prop :=
  ∀ (f : ProgressSnapshot → Except String Unit) (s : ProgressSnapshot),
    cb = some f → f s = .ok ()

/-- Indexed entries dispatched by the chunk loop: each chunk is enumerated
from its global start offset, offsets advancing by `size` per chunk. -/
def chunkPlan (size : Nat) : List (List α) → Nat → List (Nat × α)
  | [], _ => []
  | c :: rest, n => c.enumFrom n ++ chunkPlan size rest (n + size)

section ChunkLemmas

/-- Fuel does not matter for `chunkedGo` once it dominates the list length. -/
theorem chunkedGo_fuel (size : Nat) (hs : 0 < size) :
    ∀ (f g : Nat) (l : List α), l.length ≤ f → l.length ≤ g →
      chunkedGo size f l = chunkedGo size g l := by
  intro f
  induction f with
  | zero =>
    intro g l hf _
    have : l = [] := List.eq_nil_of_length_eq_zero (Nat.le_zero.mp hf)
    subst this
    cases g <;> rfl
  | succ f ih =>
    intro g l hf hg
    cases l with
    | nil => cases g <;> rfl
    | cons x xs =>
      cases g with
      | zero => simp at hg
      | succ g =>
        simp only [chunkedGo]
        congr 1
        simp only [List.length_cons] at hf hg
        have hlen : ((x :: xs).drop size).length = xs.length + 1 - size := by
          simp [List.length_drop]
        apply ih
        · omega
        · omega

/-- Unfolding equation of `chunked` for positive chunk size. -/
theorem chunked_eq (size : Nat) (hs : 0 < size) (items : List α) :
    chunked items size =
      match items with
      | [] => []
      | _ :: _ => items.take size :: chunked (items.drop size) size := by
  cases items with
  | nil => rfl
  | cons x xs =>
    show chunkedGo size (xs.length + 1) (x :: xs) = _
    simp only [chunkedGo]
    congr 1
    apply chunkedGo_fuel size hs
    · simp [List.length_drop]; omega
    · exact Nat.le_refl _

/-- Concatenating the chunks reproduces the input. -/
theorem chunked_flatten (size : Nat) (hs : 0 < size) (items : List α) :
    (chunked items size).flatten = items := by
  suffices h : ∀ (n : Nat) (l : List α), l.length ≤ n → (chunked l size).flatten = l from
    h items.length items (Nat.le_refl _)
  intro n
  induction n with
  | zero =>
    intro l hl
    have : l = [] := List.eq_nil_of_length_eq_zero (Nat.le_zero.mp hl)
    subst this
    rfl
  | succ n ih =>
    intro l hl
    rw [chunked_eq size hs]
    cases l with
    | nil => rfl
    | cons x xs =>
      simp only [List.flatten_cons]
      rw [ih ((x :: xs).drop size) (by simp [List.length_drop] at *; omega)]
      exact List.take_append_drop size (x :: xs)

/-- Every chunk is non-empty and no longer than the chunk size. -/
theorem chunked_mem (size : Nat) (hs : 0 < size) (items : List α) :
    ∀ c ∈ chunked items size, c ≠ [] ∧ c.length ≤ size := by
  suffices h : ∀ (n : Nat) (l : List α), l.length ≤ n →
      ∀ c ∈ chunked l size, c ≠ [] ∧ c.length ≤ size from
    h items.length items (Nat.le_refl _)
  intro n
  induction n with
  | zero =>
    intro l hl
    have : l = [] := List.eq_nil_of_length_eq_zero (Nat.le_zero.mp hl)
    subst this
    simp [chunked, chunkedGo]
  | succ n ih =>
    intro l hl
    rw [chunked_eq size hs]
    cases l with
    | nil => simp
    | cons x xs =>
      intro c hc
      rcases List.mem_cons.mp hc with h | h
      · subst h
        constructor
        · simp [List.take_eq_nil_iff]
          omega
        · simp [List.length_take]
      · exact ih ((x :: xs).drop size) (by simp [List.length_drop] at *; omega) c h

/-- Every chunk except possibly the last has length exactly `size`. -/
theorem chunked_full (size : Nat) (hs : 0 < size) (items : List α) :
    ∀ (i : Nat), i + 1 < (chunked items size).length →
      ((chunked items size).getD i []).length = size := by
  suffices h : ∀ (n : Nat) (l : List α), l.length ≤ n →
      ∀ (i : Nat), i + 1 < (chunked l size).length →
        ((chunked l size).getD i []).length = size from
    h items.length items (Nat.le_refl _)
  intro n
  induction n with
  | zero =>
    intro l hl
    have : l = [] := List.eq_nil_of_length_eq_zero (Nat.le_zero.mp hl)
    subst this
    intro i h
    simp [chunked, chunkedGo] at h
  | succ n ih =>
    intro l hl
    rw [chunked_eq size hs]
    cases l with
    | nil => intro i h; simp at h
    | cons x xs =>
      intro i h
      cases i with
      | zero =>
        simp only [List.length_cons] at h
        have hne : chunked ((x :: xs).drop size) size ≠ [] := by
          intro hnil
          rw [hnil] at h
          simp at h
        have hdrop : (x :: xs).drop size ≠ [] := by
          intro hnil
          rw [chunked_eq size hs, hnil] at hne
          exact hne rfl
        have : size < (x :: xs).length := by
          by_contra hle
          exact hdrop (List.drop_of_length_le (by omega))
        simp only [List.length_cons] at this
        simp [List.length_take]
        omega
      | succ i =>
        simp only [List.length_cons] at h
        simp only [List.getD_cons_succ]
        exact ih ((x :: xs).drop size) (by simp [List.length_drop] at *; omega) i (by omega)

end ChunkLemmas

/-- C8.  For every positive `batch_size`, concatenating the chunks in order
reproduces the input exactly, every chunk is non-empty of length at most
`batch_size`, every chunk except possibly the last is exactly full, and an
empty input produces zero chunks. -/
theorem claim8_chunker (size : Nat) (hs : 0 < size) (items : List α) :
    (chunked items size).flatten = items ∧
    (∀ c ∈ chunked items size, c ≠ [] ∧ c.length ≤ size) ∧
    (∀ (i : Nat), i + 1 < (chunked items size).length →
      ((chunked items size).getD i []).length = size) ∧
    (items = [] → chunked items size = []) :=
  ⟨chunked_flatten size hs items, chunked_mem size hs items,
    chunked_full size hs items, fun h => by subst h; rfl⟩

/-- Witness for C8 at a concrete input. -/
theorem claim8_chunker_witness :
    (chunked [1, 2, 3, 4, 5] 2).flatten = [1, 2, 3, 4, 5] ∧
    (∀ c ∈ chunked [1, 2, 3, 4, 5] 2, c ≠ [] ∧ c.length ≤ 2) ∧
    (∀ (i : Nat), i + 1 < (chunked [1, 2, 3, 4, 5] 2).length →
      ((chunked [1, 2, 3, 4, 5] 2).getD i []).length = 2) ∧
    (([1, 2, 3, 4, 5] : List Nat) = [] → chunked [1, 2, 3, 4, 5] 2 = []) :=
  claim8_chunker 2 (by omega) [1, 2, 3, 4, 5]

/-- C9.  On an empty input `process_batch` returns the zero `BatchResult` and
invokes neither the processor nor the progress callback. -/
theorem claim9_empty_input (proc : Nat → α → Nat → Except String β)
    (ov : Option BatchOverrides) (cb : Option (ProgressSnapshot → Except String Unit))
    (sched : Nat → List Nat) :
    process_batch proc ov cb sched [] =
      { outcome := .ok ⟨[], [], ⟨0, 0, 0⟩⟩, invocations := [], snapshots := [] } := rfl

/-- C6.  The base wait before the `attempt`-th retry (1-indexed) is
`retry_delay * 2 ^ (attempt - 1)` under exponential backoff and `retry_delay`
otherwise; the admissible jitter values form exactly the interval
`[0, wait * 0.25]`; a zero `retry_delay` forces a zero wait and a zero
jitter. -/
theorem claim6_backoff (opts : BatchOptions) (attempt : Nat) (h1 : 1 ≤ attempt)
    (hd : 0 ≤ opts.retry_delay) :
    (opts.exponential_backoff = true →
      waitDelay opts attempt = opts.retry_delay * 2 ^ (attempt - 1)) ∧
    (opts.exponential_backoff = false → waitDelay opts attempt = opts.retry_delay) ∧
    jitterSet (waitDelay opts attempt) = Set.Icc 0 (waitDelay opts attempt * (1 / 4)) ∧
    (opts.retry_delay = 0 → waitDelay opts attempt = 0 ∧ jitterSet (waitDelay opts attempt) = {0}) := by
  have hw : 0 ≤ waitDelay opts attempt := by
    unfold waitDelay
    split
    · positivity
    · exact hd
  refine ⟨?_, ?_, ?_, ?_⟩
  · intro hexp
    unfold waitDelay
    rcases lt_or_eq_of_le hd with hpos | hzero
    · simp [hexp, hpos]
    · simp [← hzero]
  · intro hexp
    unfold waitDelay
    simp [hexp]
  · unfold jitterSet
    split
    · rfl
    · rename_i hz
      push_neg at hz
      rw [hz]
      norm_num
  · intro h0
    have : waitDelay opts attempt = 0 := by
      unfold waitDelay
      simp [h0]
    refine ⟨this, ?_⟩
    unfold jitterSet
    simp [this]

/-- Witness for C6 with backoff enabled, `retry_delay = 1`, third retry:
matches the spec scenario of a base wait `1 * 2 ^ 2 = 4` with jitter in
`[0, 1]`. -/
theorem claim6_backoff_witness :
    (BatchOptions.defaults.exponential_backoff = true →
      waitDelay BatchOptions.defaults 3 = BatchOptions.defaults.retry_delay * 2 ^ (3 - 1)) ∧
    (BatchOptions.defaults.exponential_backoff = false →
      waitDelay BatchOptions.defaults 3 = BatchOptions.defaults.retry_delay) ∧
    jitterSet (waitDelay BatchOptions.defaults 3) =
      Set.Icc 0 (waitDelay BatchOptions.defaults 3 * (1 / 4)) ∧
    (BatchOptions.defaults.retry_delay = 0 →
      waitDelay BatchOptions.defaults 3 = 0 ∧ jitterSet (waitDelay BatchOptions.defaults 3) = {0}) :=
  claim6_backoff BatchOptions.defaults 3 (by omega) (by norm_num [BatchOptions.defaults])

section Characterization

theorem leftsOf_cons_inl (v : β) (rest : List (β ⊕ FailureRecord α)) :
    leftsOf (.inl v :: rest) = v :: leftsOf rest := by
  simp [leftsOf]

theorem leftsOf_cons_inr (g : FailureRecord α) (rest : List (β ⊕ FailureRecord α)) :
    leftsOf (.inr g :: rest) = leftsOf rest := by
  simp [leftsOf]

theorem rightsOf_cons_inl (v : β) (rest : List (β ⊕ FailureRecord α)) :
    rightsOf (.inl v :: rest) = rightsOf rest := by
  simp [rightsOf]

theorem rightsOf_cons_inr (g : FailureRecord α) (rest : List (β ⊕ FailureRecord α)) :
    rightsOf (.inr g :: rest) = g :: rightsOf rest := by
  simp [rightsOf]

theorem leftsOf_append (o₁ o₂ : List (β ⊕ FailureRecord α)) :
    leftsOf (o₁ ++ o₂) = leftsOf o₁ ++ leftsOf o₂ := by
  simp [leftsOf]

theorem rightsOf_append (o₁ o₂ : List (β ⊕ FailureRecord α)) :
    rightsOf (o₁ ++ o₂) = rightsOf o₁ ++ rightsOf o₂ := by
  simp [rightsOf]

theorem outcomesOf_append (proc : Nat → α → Nat → Except String β) (rc : Nat)
    (e₁ e₂ : List (Nat × α)) :
    outcomesOf proc rc (e₁ ++ e₂) = outcomesOf proc rc e₁ ++ outcomesOf proc rc e₂ := by
  simp [outcomesOf]

theorem logsOf_append (proc : Nat → α → Nat → Except String β) (rc : Nat)
    (e₁ e₂ : List (Nat × α)) :
    logsOf proc rc (e₁ ++ e₂) = logsOf proc rc e₁ ++ logsOf proc rc e₂ := by
  simp [logsOf]

theorem length_leftsOf_add_rightsOf (outs : List (β ⊕ FailureRecord α)) :
    (leftsOf outs).length + (rightsOf outs).length = outs.length := by
  induction outs with
  | nil => rfl
  | cons o rest ih =>
    cases o with
    | inl v => simp [leftsOf, rightsOf] at *; omega
    | inr f => simp [leftsOf, rightsOf] at *; omega

theorem snapshotsFrom_append (total : Nat) (o₁ o₂ : List (β ⊕ FailureRecord α)) :
    ∀ (c s f : Nat),
      snapshotsFrom total c s f (o₁ ++ o₂) =
        snapshotsFrom total c s f o₁ ++
          snapshotsFrom total (c + o₁.length) (s + (leftsOf o₁).length)
            (f + (rightsOf o₁).length) o₂ := by
  induction o₁ with
  | nil => intro c s f; simp [snapshotsFrom, leftsOf, rightsOf]
  | cons o rest ih =>
    intro c s f
    cases o with
    | inl v =>
      show (⟨c + 1, s + 1, f, total⟩ : ProgressSnapshot) ::
          snapshotsFrom total (c + 1) (s + 1) f (rest ++ o₂) = _
      rw [ih (c + 1) (s + 1) f]
      simp only [snapshotsFrom, List.length_cons, leftsOf_cons_inl, rightsOf_cons_inl]
      have e1 : c + 1 + rest.length = c + (rest.length + 1) := by omega
      have e2 : s + 1 + (leftsOf rest).length = s + ((leftsOf rest).length + 1) := by omega
      rw [e1, e2, List.cons_append]
    | inr g =>
      show (⟨c + 1, s, f + 1, total⟩ : ProgressSnapshot) ::
          snapshotsFrom total (c + 1) s (f + 1) (rest ++ o₂) = _
      rw [ih (c + 1) s (f + 1)]
      simp only [snapshotsFrom, List.length_cons, leftsOf_cons_inr, rightsOf_cons_inr]
      have e1 : c + 1 + rest.length = c + (rest.length + 1) := by omega
      have e2 : f + 1 + (rightsOf rest).length = f + ((rightsOf rest).length + 1) := by omega
      rw [e1, e2, List.cons_append]

/-- The chunk plan of the chunks of `items` enumerates `items` from the
initial offset. -/
theorem chunkPlan_chunked (size : Nat) (hs : 0 < size) (items : List α) (n : Nat) :
    chunkPlan size (chunked items size) n = items.enumFrom n := by
  suffices h : ∀ (fuel : Nat) (l : List α) (n : Nat), l.length ≤ fuel →
      chunkPlan size (chunked l size) n = l.enumFrom n from
    h items.length items n (Nat.le_refl _)
  intro fuel
  induction fuel with
  | zero =>
    intro l n hl
    have : l = [] := List.eq_nil_of_length_eq_zero (Nat.le_zero.mp hl)
    subst this
    rfl
  | succ fuel ih =>
    intro l n hl
    rw [chunked_eq size hs]
    cases l with
    | nil => rfl
    | cons x xs =>
      simp only [chunkPlan]
      rcases le_or_lt size (x :: xs).length with hbig | hsmall
      · simp only [List.length_cons] at hl hbig
        rw [ih ((x :: xs).drop size) (n + size)
          (by simp [List.length_drop]; omega)]
        have hlen : ((x :: xs).take size).length = size := by
          simp [List.length_take]; omega
        conv_rhs => rw [← List.take_append_drop size (x :: xs)]
        rw [List.enumFrom_append, hlen]
      · have hdrop : (x :: xs).drop size = [] := List.drop_of_length_le (by omega)
        have htake : (x :: xs).take size = x :: xs := List.take_of_length_le (by omega)
        rw [hdrop, htake]
        show (x :: xs).enumFrom n ++ chunkPlan size (chunked [] size) (n + size) = _
        simp [chunked, chunkedGo, chunkPlan]

theorem cbTrace_nil (cb : Option (ProgressSnapshot → Except String Unit)) :
    cbTrace cb [] = [] := by
  cases cb <;> rfl

theorem cbTrace_cons (f : ProgressSnapshot → Except String Unit) (s : ProgressSnapshot)
    (rest : List ProgressSnapshot) :
    cbTrace (some f) (s :: rest) = s :: cbTrace (some f) rest := rfl

/-- Unfolding of the inner outcome loop on a cons cell. -/
theorem processOutcomes_cons (cb : Option (ProgressSnapshot → Except String Unit))
    (total : Nat) (coe : Bool) (o : β ⊕ FailureRecord α)
    (rest : List (β ⊕ FailureRecord α)) (st : LoopState α β) :
    processOutcomes cb total coe (o :: rest) st =
      if (stepOutcome cb total coe st o).halt ||
          (stepOutcome cb total coe st o).callbackError.isSome then
        stepOutcome cb total coe st o
      else processOutcomes cb total coe rest (stepOutcome cb total coe st o) := rfl

/-- Value of `stepOutcome` for a success outcome when the callback succeeds. -/
theorem stepOutcome_some_inl (f : ProgressSnapshot → Except String Unit)
    (total : Nat) (coe : Bool) (st : LoopState α β) (v : β) (u : Unit)
    (hstep : f ⟨st.completed + 1, st.success + 1, st.failure, total⟩ = .ok u) :
    stepOutcome (some f) total coe st (.inl v) =
      { st with successful := st.successful ++ [v], success := st.success + 1
                completed := st.completed + 1
                snapshots := st.snapshots ++
                  [⟨st.completed + 1, st.success + 1, st.failure, total⟩] } := by
  simp [stepOutcome, hstep]

/-- Folding outcomes with `continue_on_error = true`: either the callback
raised at some point, or the state is extended by exactly the partition of the
outcomes, with a snapshot recorded per outcome. -/
theorem processOutcomes_true (cb : Option (ProgressSnapshot → Except String Unit))
    (total : Nat) (outs : List (β ⊕ FailureRecord α)) :
    ∀ (st : LoopState α β), st.halt = false → st.callbackError = none →
      (processOutcomes cb total true outs st).callbackError.isSome = true ∨
      processOutcomes cb total true outs st =
        { st with
          successful := st.successful ++ leftsOf outs
          failed := st.failed ++ rightsOf outs
          success := st.success + (leftsOf outs).length
          failure := st.failure + (rightsOf outs).length
          completed := st.completed + outs.length
          snapshots := st.snapshots ++
            cbTrace cb (snapshotsFrom total st.completed st.success st.failure outs) } := by
  induction outs with
  | nil =>
    intro st hh hc
    right
    simp only [processOutcomes, leftsOf, rightsOf, List.filterMap_nil, snapshotsFrom,
      cbTrace_nil, List.append_nil, List.length_nil, Nat.add_zero]
  | cons o rest ih =>
    intro st hh hc
    obtain ⟨su, fa, sc, fl, co, ha, ce, inv, sn⟩ := st
    simp only at hh hc
    subst hh hc
    cases o with
    | inl v =>
      cases cb with
      | none =>
        rcases ih ⟨su ++ [v], fa, sc + 1, fl, co + 1, false, none, inv, sn⟩ rfl rfl
          with hL | hR
        · exact Or.inl hL
        · right
          show processOutcomes none total true rest
            ⟨su ++ [v], fa, sc + 1, fl, co + 1, false, none, inv, sn⟩ = _
          rw [hR]
          simp [leftsOf_cons_inl, rightsOf_cons_inl, snapshotsFrom, cbTrace,
            List.append_assoc, List.singleton_append]
          try omega
      | some f =>
        cases hstep : f ⟨co + 1, sc + 1, fl, total⟩ with
        | error m =>
          left
          simp [processOutcomes_cons, stepOutcome, hstep]
        | ok u =>
          rw [processOutcomes_cons,
            stepOutcome_some_inl f total true ⟨su, fa, sc, fl, co, false, none, inv, sn⟩ v u hstep]
          simp only [Bool.or_false, Option.isSome_none, if_neg (Bool.false_ne_true)]
          rcases ih ⟨su ++ [v], fa, sc + 1, fl, co + 1, false, none, inv,
              sn ++ [⟨co + 1, sc + 1, fl, total⟩]⟩ rfl rfl with hL | hR
          · exact Or.inl hL
          · right
            rw [hR]
            simp only [leftsOf_cons_inl, rightsOf_cons_inl, snapshotsFrom, cbTrace_cons,
              List.length_cons, LoopState.mk.injEq, List.append_assoc, List.singleton_append]
            simp [leftsOf_cons_inl, rightsOf_cons_inl, snapshotsFrom, cbTrace_cons,
              List.append_assoc, List.singleton_append]
            try omega
    | inr g =>
      cases cb with
      | none =>
        rcases ih ⟨su, fa ++ [g], sc, fl + 1, co + 1, false, none, inv, sn⟩ rfl rfl
          with hL | hR
        · exact Or.inl hL
        · right
          show processOutcomes none total true rest
            ⟨su, fa ++ [g], sc, fl + 1, co + 1, false, none, inv, sn⟩ = _
          rw [hR]
          simp [leftsOf_cons_inr, rightsOf_cons_inr, snapshotsFrom, cbTrace,
            List.append_assoc, List.singleton_append]
          try omega
      | some f =>
        cases hstep : f ⟨co + 1, sc, fl + 1, total⟩ with
        | error m =>
          left
          simp [processOutcomes_cons, stepOutcome, hstep]
        | ok u =>
          have hso : stepOutcome (some f) total true
              ⟨su, fa, sc, fl, co, false, none, inv, sn⟩ (.inr g) =
              ⟨su, fa ++ [g], sc, fl + 1, co + 1, false, none, inv,
                sn ++ [⟨co + 1, sc, fl + 1, total⟩]⟩ := by
            simp [stepOutcome, hstep]
          rw [processOutcomes_cons, hso]
          simp only [Bool.or_false, Option.isSome_none, if_neg (Bool.false_ne_true)]
          rcases ih ⟨su, fa ++ [g], sc, fl + 1, co + 1, false, none, inv,
              sn ++ [⟨co + 1, sc, fl + 1, total⟩]⟩ rfl rfl with hL | hR
          · exact Or.inl hL
          · right
            rw [hR]
            simp only [leftsOf_cons_inr, rightsOf_cons_inr, snapshotsFrom, cbTrace_cons,
              List.length_cons, LoopState.mk.injEq, List.append_assoc, List.singleton_append]
            simp [leftsOf_cons_inr, rightsOf_cons_inr, snapshotsFrom, cbTrace_cons,
              List.append_assoc, List.singleton_append]
            try omega


/-- Folding all-successful outcomes with no callback: the state is extended by
the successes only, irrespective of `continue_on_error`. -/
theorem processOutcomes_none_left (total : Nat) (coe : Bool)
    (outs : List (β ⊕ FailureRecord α)) :
    ∀ (st : LoopState α β), st.halt = false → st.callbackError = none →
      (∀ o ∈ outs, o.isLeft = true) →
      processOutcomes none total coe outs st =
        { st with
          successful := st.successful ++ leftsOf outs
          success := st.success + outs.length
          completed := st.completed + outs.length } := by
  induction outs with
  | nil =>
    intro st hh hc _
    simp only [processOutcomes, leftsOf, List.filterMap_nil, List.append_nil,
      List.length_nil, Nat.add_zero]
  | cons o rest ih =>
    intro st hh hc hall
    obtain ⟨su, fa, sc, fl, co, ha, ce, inv, sn⟩ := st
    simp only at hh hc
    subst hh hc
    cases o with
    | inl v =>
      show processOutcomes none total coe rest
        ⟨su ++ [v], fa, sc + 1, fl, co + 1, false, none, inv, sn⟩ = _
      rw [ih ⟨su ++ [v], fa, sc + 1, fl, co + 1, false, none, inv, sn⟩ rfl rfl
        (fun o ho => hall o (List.mem_cons_of_mem _ ho))]
      simp [leftsOf_cons_inl, List.append_assoc, List.singleton_append]
      try omega
    | inr g =>
      have := hall (.inr g) (List.mem_cons_self _ _)
      simp at this

/-- Folding a chunk whose gathered outcomes contain a first failure, with no
callback and `continue_on_error = false`: the successes before the failure and
the failure itself are recorded, `halt` is set, and the remaining outcomes of
the chunk are discarded. -/
theorem processOutcomes_none_halt (total : Nat)
    (pre post : List (β ⊕ FailureRecord α)) (g : FailureRecord α) :
    ∀ (st : LoopState α β), st.halt = false → st.callbackError = none →
      (∀ o ∈ pre, o.isLeft = true) →
      processOutcomes none total false (pre ++ .inr g :: post) st =
        { st with
          successful := st.successful ++ leftsOf pre
          failed := st.failed ++ [g]
          success := st.success + pre.length
          failure := st.failure + 1
          completed := st.completed + pre.length + 1
          halt := true } := by
  induction pre with
  | nil =>
    intro st hh hc _
    obtain ⟨su, fa, sc, fl, co, ha, ce, inv, sn⟩ := st
    simp only at hh hc
    subst hh hc
    simp [processOutcomes_cons, stepOutcome, leftsOf]
  | cons o rest ih =>
    intro st hh hc hall
    obtain ⟨su, fa, sc, fl, co, ha, ce, inv, sn⟩ := st
    simp only at hh hc
    subst hh hc
    cases o with
    | inl v =>
      show processOutcomes none total false (rest ++ .inr g :: post)
        ⟨su ++ [v], fa, sc + 1, fl, co + 1, false, none, inv, sn⟩ = _
      rw [ih ⟨su ++ [v], fa, sc + 1, fl, co + 1, false, none, inv, sn⟩ rfl rfl
        (fun o ho => hall o (List.mem_cons_of_mem _ ho))]
      simp [leftsOf_cons_inl, List.append_assoc, List.singleton_append]
      try omega
    | inr q =>
      have := hall (.inr q) (List.mem_cons_self _ _)
      simp at this

/-- A halted or unwinding state passes through the chunk loop unchanged. -/
theorem processChunks_stopped (proc : Nat → α → Nat → Except String β)
    (cb : Option (ProgressSnapshot → Except String Unit)) (total : Nat) (coe : Bool)
    (rc bs : Nat) (sched : Nat → List Nat) (chunks : List (List α)) (bIdx bstart : Nat)
    (st : LoopState α β) (h : (st.halt || st.callbackError.isSome) = true) :
    processChunks proc cb total coe rc bs sched chunks bIdx bstart st = st := by
  cases chunks with
  | nil => rfl
  | cons c rest => simp [processChunks, h]

/-- `cbTrace` distributes over append. -/
theorem cbTrace_append (cb : Option (ProgressSnapshot → Except String Unit))
    (x y : List ProgressSnapshot) : cbTrace cb (x ++ y) = cbTrace cb x ++ cbTrace cb y := by
  cases cb <;> rfl

/-- Positional form of `processOutcomes_true` on a live state. -/
theorem processOutcomes_true_pos (cb : Option (ProgressSnapshot → Except String Unit))
    (total : Nat) (outs : List (β ⊕ FailureRecord α)) (su : List β)
    (fa : List (FailureRecord α)) (sc fl co : Nat) (inv : List (Nat × Nat))
    (sn : List ProgressSnapshot) :
    (processOutcomes cb total true outs
        ⟨su, fa, sc, fl, co, false, none, inv, sn⟩).callbackError.isSome = true ∨
    processOutcomes cb total true outs ⟨su, fa, sc, fl, co, false, none, inv, sn⟩ =
      ⟨su ++ leftsOf outs, fa ++ rightsOf outs, sc + (leftsOf outs).length,
        fl + (rightsOf outs).length, co + outs.length, false, none, inv,
        sn ++ cbTrace cb (snapshotsFrom total co sc fl outs)⟩ := by
  rcases processOutcomes_true cb total outs ⟨su, fa, sc, fl, co, false, none, inv, sn⟩
    rfl rfl with hL | hR
  · exact Or.inl hL
  · exact Or.inr hR

/-- Unfolding of the chunk loop on a cons cell for a live state: all items of
the chunk are dispatched, the traces recorded, and the gathered outcomes are
folded before the next chunk. -/
theorem processChunks_cons_go (proc : Nat → α → Nat → Except String β)
    (cb : Option (ProgressSnapshot → Except String Unit)) (total : Nat) (coe : Bool)
    (rc bs : Nat) (sched : Nat → List Nat) (chunk : List α) (rest : List (List α))
    (bIdx bstart : Nat) (su : List β) (fa : List (FailureRecord α)) (sc fl co : Nat)
    (inv : List (Nat × Nat)) (sn : List ProgressSnapshot) :
    processChunks proc cb total coe rc bs sched (chunk :: rest) bIdx bstart
        ⟨su, fa, sc, fl, co, false, none, inv, sn⟩ =
      processChunks proc cb total coe rc bs sched rest (bIdx + 1) (bstart + bs)
        (processOutcomes cb total coe (outcomesOf proc rc (chunk.enumFrom bstart))
          ⟨su, fa, sc, fl, co, false, none,
            inv ++ logsOf proc rc (chunk.enumFrom bstart), sn⟩) := by
  simp only [processChunks, Option.isSome_none, Bool.or_false, Bool.false_eq_true,
    if_false, gather, outcomesOf, logsOf, List.map_map]
  rfl

/-- Chunk loop with `continue_on_error = true`: either the callback raised, or
the final state extends the initial one by the partition of all outcomes of
the chunk plan, the full invocation trace, and the snapshot trace. -/
theorem processChunks_true (proc : Nat → α → Nat → Except String β)
    (cb : Option (ProgressSnapshot → Except String Unit)) (total : Nat)
    (rc bs : Nat) (sched : Nat → List Nat) (chunks : List (List α)) :
    ∀ (bIdx bstart : Nat) (su : List β) (fa : List (FailureRecord α)) (sc fl co : Nat)
      (inv : List (Nat × Nat)) (sn : List ProgressSnapshot),
      (processChunks proc cb total true rc bs sched chunks bIdx bstart
          ⟨su, fa, sc, fl, co, false, none, inv, sn⟩).callbackError.isSome = true ∨
      processChunks proc cb total true rc bs sched chunks bIdx bstart
          ⟨su, fa, sc, fl, co, false, none, inv, sn⟩ =
        ⟨su ++ leftsOf (outcomesOf proc rc (chunkPlan bs chunks bstart)),
          fa ++ rightsOf (outcomesOf proc rc (chunkPlan bs chunks bstart)),
          sc + (leftsOf (outcomesOf proc rc (chunkPlan bs chunks bstart))).length,
          fl + (rightsOf (outcomesOf proc rc (chunkPlan bs chunks bstart))).length,
          co + (chunkPlan bs chunks bstart).length, false, none,
          inv ++ logsOf proc rc (chunkPlan bs chunks bstart),
          sn ++ cbTrace cb (snapshotsFrom total co sc fl
            (outcomesOf proc rc (chunkPlan bs chunks bstart)))⟩ := by
  induction chunks with
  | nil =>
    intro bIdx bstart su fa sc fl co inv sn
    right
    simp only [processChunks, chunkPlan, outcomesOf, logsOf, List.map_nil, List.flatten_nil,
      leftsOf, rightsOf, List.filterMap_nil, snapshotsFrom, cbTrace_nil, List.append_nil,
      List.length_nil, Nat.add_zero]
  | cons chunk rest ih =>
    intro bIdx bstart su fa sc fl co inv sn
    rw [processChunks_cons_go]
    rcases processOutcomes_true_pos cb total (outcomesOf proc rc (chunk.enumFrom bstart))
        su fa sc fl co (inv ++ logsOf proc rc (chunk.enumFrom bstart)) sn with hL | hR
    · left
      rw [processChunks_stopped _ _ _ _ _ _ _ _ _ _ _ (by rw [hL]; simp)]
      exact hL
    · rw [hR]
      rcases ih (bIdx + 1) (bstart + bs)
          (su ++ leftsOf (outcomesOf proc rc (chunk.enumFrom bstart)))
          (fa ++ rightsOf (outcomesOf proc rc (chunk.enumFrom bstart)))
          (sc + (leftsOf (outcomesOf proc rc (chunk.enumFrom bstart))).length)
          (fl + (rightsOf (outcomesOf proc rc (chunk.enumFrom bstart))).length)
          (co + (outcomesOf proc rc (chunk.enumFrom bstart)).length)
          (inv ++ logsOf proc rc (chunk.enumFrom bstart))
          (sn ++ cbTrace cb (snapshotsFrom total co sc fl
            (outcomesOf proc rc (chunk.enumFrom bstart)))) with hL2 | hR2
      · exact Or.inl hL2
      · right
        rw [hR2]
        have hlen : (outcomesOf proc rc (chunk.enumFrom bstart)).length
            = (chunk.enumFrom bstart).length := by
          simp [outcomesOf]
        simp only [chunkPlan, outcomesOf_append, leftsOf_append, rightsOf_append,
          logsOf_append, List.length_append, snapshotsFrom_append, cbTrace_append,
          List.append_assoc, LoopState.mk.injEq, hlen]
        repeat' apply And.intro
        all_goals first | rfl | omega | trivial

/-- The merged batch size is always positive (merged clamps to at least 1 and
the default is 10). -/
theorem merged_batch_size_pos (ov : Option BatchOverrides) :
    0 < (BatchOptions.defaults.merged ov).batch_size := by
  cases ov with
  | none => decide
  | some v =>
    show 0 < (max 1 (v.batch_size.getD ((10 : Nat) : Int))).toNat
    have h1 : (1 : Int) ≤ max 1 (v.batch_size.getD ((10 : Nat) : Int)) := le_max_left _ _
    omega

/-- One step never touches the callback-error field when the callback never
raises. -/
theorem stepOutcome_cbok (cb : Option (ProgressSnapshot → Except String Unit))
    (hcb : cbOk cb) (total : Nat) (coe : Bool) (st : LoopState α β)
    (o : β ⊕ FailureRecord α) :
    (stepOutcome cb total coe st o).callbackError = st.callbackError := by
  cases cb with
  | none => cases o <;> rfl
  | some f =>
    cases o with
    | inl v => simp [stepOutcome, hcb f _ rfl]
    | inr g => simp [stepOutcome, hcb f _ rfl]

/-- The inner loop never sets a callback error when the callback never
raises. -/
theorem processOutcomes_cbok (cb : Option (ProgressSnapshot → Except String Unit))
    (hcb : cbOk cb) (total : Nat) (coe : Bool) (outs : List (β ⊕ FailureRecord α)) :
    ∀ (st : LoopState α β),
      (processOutcomes cb total coe outs st).callbackError = st.callbackError := by
  induction outs with
  | nil => intro st; rfl
  | cons o rest ih =>
    intro st
    rw [processOutcomes_cons]
    split
    · exact stepOutcome_cbok cb hcb total coe st o
    · rw [ih]
      exact stepOutcome_cbok cb hcb total coe st o

/-- The chunk loop never sets a callback error when the callback never
raises. -/
theorem processChunks_cbok (proc : Nat → α → Nat → Except String β)
    (cb : Option (ProgressSnapshot → Except String Unit)) (hcb : cbOk cb)
    (total : Nat) (coe : Bool) (rc bs : Nat) (sched : Nat → List Nat)
    (chunks : List (List α)) :
    ∀ (bIdx bstart : Nat) (st : LoopState α β),
      (processChunks proc cb total coe rc bs sched chunks bIdx bstart st).callbackError
        = st.callbackError := by
  induction chunks with
  | nil => intro bIdx bstart st; rfl
  | cons chunk rest ih =>
    intro bIdx bstart st
    show (if st.halt || st.callbackError.isSome then st
      else processChunks proc cb total coe rc bs sched rest (bIdx + 1) (bstart + bs)
        (processOutcomes cb total coe _ _)).callbackError = st.callbackError
    split
    · rfl
    · rw [ih, processOutcomes_cbok cb hcb]

/-- Top-level characterisation of `process_batch` for a non-empty input with
`continue_on_error = true`: either the callback raised and the run surfaces
the callback exception, or the run returns the `BatchResult` that partitions
the per-item `run_single` outcomes, having invoked the processor exactly as
recorded by the per-item traces and emitted one snapshot per item. -/
theorem process_batch_true (proc : Nat → α → Nat → Except String β)
    (ov : Option BatchOverrides) (cb : Option (ProgressSnapshot → Except String Unit))
    (sched : Nat → List Nat) (items : List α) (hne : items ≠ [])
    (hcoe : (BatchOptions.defaults.merged ov).continue_on_error = true) :
    (∃ m, (process_batch proc ov cb sched items).outcome = .error (.callbackFailure m)) ∨
    process_batch proc ov cb sched items =
      ⟨.ok ⟨leftsOf (outcomesOf proc (BatchOptions.defaults.merged ov).retry_count
              (items.enumFrom 0)),
            rightsOf (outcomesOf proc (BatchOptions.defaults.merged ov).retry_count
              (items.enumFrom 0)),
            ⟨(leftsOf (outcomesOf proc (BatchOptions.defaults.merged ov).retry_count
                (items.enumFrom 0))).length,
             (rightsOf (outcomesOf proc (BatchOptions.defaults.merged ov).retry_count
                (items.enumFrom 0))).length,
             items.length⟩⟩,
        logsOf proc (BatchOptions.defaults.merged ov).retry_count (items.enumFrom 0),
        cbTrace cb (snapshotsFrom items.length 0 0 0
          (outcomesOf proc (BatchOptions.defaults.merged ov).retry_count
            (items.enumFrom 0)))⟩ := by
  obtain ⟨x, xs, rfl⟩ : ∃ x xs, items = x :: xs := by
    cases items with
    | nil => exact absurd rfl hne
    | cons x xs => exact ⟨x, xs, rfl⟩
  have hplan := chunkPlan_chunked (BatchOptions.defaults.merged ov).batch_size
    (merged_batch_size_pos ov) (x :: xs) 0
  rcases processChunks_true proc cb (x :: xs).length
      (BatchOptions.defaults.merged ov).retry_count
      (BatchOptions.defaults.merged ov).batch_size sched
      (chunked (x :: xs) (BatchOptions.defaults.merged ov).batch_size)
      1 0 [] [] 0 0 0 [] [] with hL | hR
  · left
    rw [Option.isSome_iff_exists] at hL
    obtain ⟨m, hm⟩ := hL
    refine ⟨m, ?_⟩
    simp only [process_batch, hcoe, initState, hm]
  · right
    rw [hplan] at hR
    simp only [process_batch, hcoe, initState, hR]
    simp

/-- With a callback that never raises, the characterised `BatchResult` branch
of `process_batch_true` always applies. -/
theorem process_batch_true_cbok (proc : Nat → α → Nat → Except String β)
    (ov : Option BatchOverrides) (cb : Option (ProgressSnapshot → Except String Unit))
    (hcb : cbOk cb) (sched : Nat → List Nat) (items : List α) (hne : items ≠ [])
    (hcoe : (BatchOptions.defaults.merged ov).continue_on_error = true) :
    process_batch proc ov cb sched items =
      ⟨.ok ⟨leftsOf (outcomesOf proc (BatchOptions.defaults.merged ov).retry_count
              (items.enumFrom 0)),
            rightsOf (outcomesOf proc (BatchOptions.defaults.merged ov).retry_count
              (items.enumFrom 0)),
            ⟨(leftsOf (outcomesOf proc (BatchOptions.defaults.merged ov).retry_count
                (items.enumFrom 0))).length,
             (rightsOf (outcomesOf proc (BatchOptions.defaults.merged ov).retry_count
                (items.enumFrom 0))).length,
             items.length⟩⟩,
        logsOf proc (BatchOptions.defaults.merged ov).retry_count (items.enumFrom 0),
        cbTrace cb (snapshotsFrom items.length 0 0 0
          (outcomesOf proc (BatchOptions.defaults.merged ov).retry_count
            (items.enumFrom 0)))⟩ := by
  obtain ⟨x, xs, rfl⟩ : ∃ x xs, items = x :: xs := by
    cases items with
    | nil => exact absurd rfl hne
    | cons x xs => exact ⟨x, xs, rfl⟩
  have hplan := chunkPlan_chunked (BatchOptions.defaults.merged ov).batch_size
    (merged_batch_size_pos ov) (x :: xs) 0
  have hnone := processChunks_cbok proc cb hcb (x :: xs).length true
    (BatchOptions.defaults.merged ov).retry_count
    (BatchOptions.defaults.merged ov).batch_size sched
    (chunked (x :: xs) (BatchOptions.defaults.merged ov).batch_size) 1 0
    ⟨[], [], 0, 0, 0, false, none, [], []⟩
  rcases processChunks_true proc cb (x :: xs).length
      (BatchOptions.defaults.merged ov).retry_count
      (BatchOptions.defaults.merged ov).batch_size sched
      (chunked (x :: xs) (BatchOptions.defaults.merged ov).batch_size)
      1 0 [] [] 0 0 0 [] [] with hL | hR
  · rw [hnone] at hL
    simp at hL
  · rw [hplan] at hR
    simp only [process_batch, hcoe, initState, hR]
    simp

/-- Shift lemma for the attempt trace of the retry loop. -/
theorem range_pair_shift (i a r : Nat) :
    (List.range (r + 1 + 1)).map (fun k => (i, a + k)) =
      (i, a) :: (List.range (r + 1)).map (fun k => (i, a + 1 + k)) := by
  rw [List.range_succ_eq_map]
  simp only [List.map_cons, List.map_map, Nat.add_zero]
  congr 1
  apply List.map_congr_left
  intro k _
  simp only [Function.comp_apply]
  congr 1
  omega

/-- Exhaustive-failure behaviour of the retry loop: starting at attempt `a`
with `r` retries left, an always-failing processor is invoked at attempts
`a, a+1, ..., a+r` and the failure record carries the last attempt's message
and the item's index. -/
theorem runSingleGo_allfail (proc : Nat → α → Nat → Except String β) (i : Nat) (x : α)
    (e : Nat → String) (hfail : ∀ a, proc i x a = .error (e a)) :
    ∀ (r a : Nat), runSingleGo proc i x a r =
      (.inr ⟨x, e (a + r), i⟩, (List.range (r + 1)).map fun k => (i, a + k)) := by
  intro r
  induction r with
  | zero =>
    intro a
    simp only [runSingleGo, hfail a, Nat.add_zero]
    rfl
  | succ r ih =>
    intro a
    simp only [runSingleGo, hfail a]
    rw [ih (a + 1)]
    have h1 : a + 1 + r = a + (r + 1) := by omega
    rw [h1, range_pair_shift i a r]

/-- `_run_single` on an always-failing processor: exactly `retry_count + 1`
invocations at attempts `0..retry_count`, returning the failure record with
the last error message and the original index. -/
theorem run_single_allfail (proc : Nat → α → Nat → Except String β) (rc i : Nat) (x : α)
    (e : Nat → String) (hfail : ∀ a, proc i x a = .error (e a)) :
    run_single proc rc i x =
      (.inr ⟨x, e rc, i⟩, (List.range (rc + 1)).map fun a => (i, a)) := by
  rw [run_single, runSingleGo_allfail proc i x e hfail rc 0]
  simp

/-- A failure outcome of the retry loop always carries the index the item was
dispatched with. -/
theorem runSingleGo_fail_index (proc : Nat → α → Nat → Except String β) (i : Nat) (x : α) :
    ∀ (r a : Nat) (rec : FailureRecord α),
      (runSingleGo proc i x a r).1 = .inr rec → rec.index = i := by
  intro r
  induction r with
  | zero =>
    intro a rec h
    rcases hp : proc i x a with m | v
    · simp [runSingleGo, hp] at h
      rw [← h]
    · simp [runSingleGo, hp] at h
  | succ r ih =>
    intro a rec h
    rcases hp : proc i x a with m | v
    · simp only [runSingleGo, hp] at h
      exact ih (a + 1) rec h
    · simp [runSingleGo, hp] at h

/-- Index form of `runSingleGo_fail_index` for `run_single`. -/
theorem run_single_fail_index (proc : Nat → α → Nat → Except String β) (rc i : Nat) (x : α)
    (rec : FailureRecord α) (h : (run_single proc rc i x).1 = .inr rec) : rec.index = i :=
  runSingleGo_fail_index proc i x rc 0 rec h

/-- C5.  With `continue_on_error = true`, a returned `BatchResult` satisfies
`totals.success + totals.failure = totals.total = len(items)` with the totals
equal to the lengths of the `successful` and `failed` lists, for every
processor, callback, schedule and mix of outcomes. -/
theorem claim5_totals (proc : Nat → α → Nat → Except String β)
    (ov : Option BatchOverrides) (cb : Option (ProgressSnapshot → Except String Unit))
    (sched : Nat → List Nat) (items : List α) (hne : items ≠ [])
    (hcoe : (BatchOptions.defaults.merged ov).continue_on_error = true)
    (r : BatchResult α β)
    (hr : (process_batch proc ov cb sched items).outcome = .ok r) :
    r.totals.success + r.totals.failure = r.totals.total ∧
    r.totals.total = items.length ∧
    r.totals.success = r.successful.length ∧
    r.totals.failure = r.failed.length := by
  rcases process_batch_true proc ov cb sched items hne hcoe with hL | hR
  · obtain ⟨m, hm⟩ := hL
    rw [hm] at hr
    cases hr
  · rw [hR] at hr
    simp only at hr
    cases hr
    refine ⟨?_, rfl, rfl, rfl⟩
    show (leftsOf (outcomesOf proc (BatchOptions.defaults.merged ov).retry_count
        (items.enumFrom 0))).length +
      (rightsOf (outcomesOf proc (BatchOptions.defaults.merged ov).retry_count
        (items.enumFrom 0))).length = items.length
    rw [length_leftsOf_add_rightsOf]
    simp [outcomesOf]

/-- Witness for C5: the spec scenario `["good", "bad"]` with `retry_count = 0`. -/
theorem claim5_totals_witness :
    (⟨1, 1, 2⟩ : Totals).success + (⟨1, 1, 2⟩ : Totals).failure = (⟨1, 1, 2⟩ : Totals).total ∧
    (⟨1, 1, 2⟩ : Totals).total = (["good", "bad"] : List String).length ∧
    (⟨1, 1, 2⟩ : Totals).success = (["good"] : List String).length ∧
    (⟨1, 1, 2⟩ : Totals).failure = ([⟨"bad", "boom", 1⟩] : List (FailureRecord String)).length := by
  have h := claim5_totals
    (fun _ item _ => if item == "bad" then Except.error "boom" else Except.ok item)
    (some { retry_count := some 0, concurrency := some 1 }) none (fun _ => [])
    ["good", "bad"] (by simp) (by decide)
    ⟨["good"], [⟨"bad", "boom", 1⟩], ⟨1, 1, 2⟩⟩ (by rfl)
  exact h

/-- C4.  An item whose processor raises on every invocation is invoked exactly
`retry_count + 1` times (attempts `0..retry_count`), its failure record keeps
the item, the last error message verbatim and the original input index (also
across chunk boundaries), and the record ends up in the `failed` list of the
returned `BatchResult`. -/
theorem claim4_retry_bound (proc : Nat → α → Nat → Except String β)
    (ov : Option BatchOverrides) (sched : Nat → List Nat) (items : List α)
    (i : Nat) (hi : i < items.length) (e : Nat → String)
    (hfail : ∀ a, proc i (items.get ⟨i, hi⟩) a = .error (e a))
    (hcoe : (BatchOptions.defaults.merged ov).continue_on_error = true) :
    run_single proc (BatchOptions.defaults.merged ov).retry_count i (items.get ⟨i, hi⟩) =
      (.inr ⟨items.get ⟨i, hi⟩, e (BatchOptions.defaults.merged ov).retry_count, i⟩,
        (List.range ((BatchOptions.defaults.merged ov).retry_count + 1)).map fun a => (i, a)) ∧
    ∀ r, (process_batch proc ov none sched items).outcome = .ok r →
      (⟨items.get ⟨i, hi⟩, e (BatchOptions.defaults.merged ov).retry_count, i⟩ :
        FailureRecord α) ∈ r.failed := by
  have hrs := run_single_allfail proc (BatchOptions.defaults.merged ov).retry_count i
    (items.get ⟨i, hi⟩) e hfail
  refine ⟨hrs, ?_⟩
  intro r hr
  have hne : items ≠ [] := by
    intro h
    rw [h] at hi
    simp at hi
  rw [process_batch_true_cbok proc ov none (by intro f s h; cases h) sched items hne hcoe]
    at hr
  simp only at hr
  cases hr
  show _ ∈ rightsOf (outcomesOf proc (BatchOptions.defaults.merged ov).retry_count
    (items.enumFrom 0))
  have hmem : ((i : Nat), items.get ⟨i, hi⟩) ∈ items.enumFrom 0 := by
    have := (List.mk_add_mem_enumFrom_iff_getElem?
      (n := 0) (i := i) (x := items.get ⟨i, hi⟩) (l := items)).mpr
    simp only [Nat.zero_add] at this
    apply this
    simp [List.getElem?_eq_getElem hi]
  have houtmem : (Sum.inr ⟨items.get ⟨i, hi⟩, e (BatchOptions.defaults.merged ov).retry_count, i⟩ :
      β ⊕ FailureRecord α) ∈ outcomesOf proc (BatchOptions.defaults.merged ov).retry_count
        (items.enumFrom 0) := by
    have : (Sum.inr ⟨items.get ⟨i, hi⟩, e (BatchOptions.defaults.merged ov).retry_count, i⟩ :
        β ⊕ FailureRecord α) =
        (run_single proc (BatchOptions.defaults.merged ov).retry_count i
          (items.get ⟨i, hi⟩)).1 := by
      rw [hrs]
    rw [this]
    exact List.mem_map_of_mem _ hmem
  rw [rightsOf, List.mem_filterMap]
  exact ⟨_, houtmem, by simp⟩

/-- Witness for C4: two items with `batch_size = 1` so the failing item sits in
the second chunk; `retry_count = 2` gives three invocations and the record
keeps index 1 and the final message. -/
theorem claim4_retry_bound_witness :
    run_single (fun i _ a => if i == 1 then Except.error ("e" ++ toString a)
        else Except.ok "v")
      (BatchOptions.defaults.merged (some { retry_count := some 2, batch_size := some 1 })).retry_count
      1 ((["a", "b"] : List String).get ⟨1, by decide⟩) =
      (.inr ⟨(["a", "b"] : List String).get ⟨1, by decide⟩, "e" ++ toString 2, 1⟩,
        (List.range ((BatchOptions.defaults.merged
          (some { retry_count := some 2, batch_size := some 1 })).retry_count + 1)).map
            fun a => (1, a)) ∧
    ∀ r, (process_batch (fun i _ a => if i == 1 then Except.error ("e" ++ toString a)
        else Except.ok "v")
        (some { retry_count := some 2, batch_size := some 1 }) none (fun _ => [])
        ["a", "b"]).outcome = .ok r →
      (⟨(["a", "b"] : List String).get ⟨1, by decide⟩, "e" ++ toString 2, 1⟩ :
        FailureRecord String) ∈ r.failed :=
  claim4_retry_bound (fun i _ a => if i == 1 then Except.error ("e" ++ toString a)
      else Except.ok "v")
    (some { retry_count := some 2, batch_size := some 1 }) (fun _ => []) ["a", "b"]
    1 (by decide) (fun a => "e" ++ toString a) (fun a => by simp) (by decide)

/-- One inner-loop pass with an always-raising callback records the pending
exception immediately after the first outcome. -/
theorem processOutcomes_cbfail (f : ProgressSnapshot → Except String Unit) (m : String)
    (hf : ∀ s, f s = .error m) (total : Nat) (coe : Bool)
    (o : β ⊕ FailureRecord α) (rest : List (β ⊕ FailureRecord α)) (st : LoopState α β) :
    (processOutcomes (some f) total coe (o :: rest) st).callbackError = some m := by
  rw [processOutcomes_cons]
  have hstep : (stepOutcome (some f) total coe st o).callbackError = some m := by
    cases o with
    | inl v => simp [stepOutcome, hf]
    | inr g => simp [stepOutcome, hf]
  split
  · exact hstep
  · rename_i hguard
    exfalso
    apply hguard
    rw [hstep]
    simp

/-- An always-raising progress callback aborts `process_batch` on any
non-empty input: the callback's exception propagates as the run's outcome and
no `BatchResult` is produced. -/
theorem process_batch_cbfail (proc : Nat → α → Nat → Except String β)
    (ov : Option BatchOverrides) (f : ProgressSnapshot → Except String Unit) (m : String)
    (hf : ∀ s, f s = .error m) (sched : Nat → List Nat) (items : List α)
    (hne : items ≠ []) :
    (process_batch proc ov (some f) sched items).outcome =
      .error (.callbackFailure m) := by
  obtain ⟨x, xs, rfl⟩ : ∃ x xs, items = x :: xs := by
    cases items with
    | nil => exact absurd rfl hne
    | cons x xs => exact ⟨x, xs, rfl⟩
  have hbs := merged_batch_size_pos ov
  have htake : (x :: xs).take (BatchOptions.defaults.merged ov).batch_size =
      x :: xs.take ((BatchOptions.defaults.merged ov).batch_size - 1) :=
    List.take_cons hbs
  have houts : outcomesOf proc (BatchOptions.defaults.merged ov).retry_count
      (((x :: xs).take (BatchOptions.defaults.merged ov).batch_size).enumFrom 0) =
      (run_single proc (BatchOptions.defaults.merged ov).retry_count 0 x).1 ::
        outcomesOf proc (BatchOptions.defaults.merged ov).retry_count
          ((xs.take ((BatchOptions.defaults.merged ov).batch_size - 1)).enumFrom 1) := by
    rw [htake]
    rfl
  have hcb : (processChunks proc (some f) (x :: xs).length
      (BatchOptions.defaults.merged ov).continue_on_error
      (BatchOptions.defaults.merged ov).retry_count
      (BatchOptions.defaults.merged ov).batch_size sched
      (((x :: xs).take (BatchOptions.defaults.merged ov).batch_size) ::
        chunked ((x :: xs).drop (BatchOptions.defaults.merged ov).batch_size)
          (BatchOptions.defaults.merged ov).batch_size) 1 0
      ⟨[], [], 0, 0, 0, false, none, [], []⟩).callbackError = some m := by
    rw [processChunks_cons_go]
    rw [houts]
    rw [processChunks_stopped]
    · exact processOutcomes_cbfail f m hf _ _ _ _ _
    · rw [processOutcomes_cbfail f m hf _ _ _ _ _]
      simp
  simp only [process_batch, initState]
  rw [show chunked (x :: xs) (BatchOptions.defaults.merged ov).batch_size =
      ((x :: xs).take (BatchOptions.defaults.merged ov).batch_size) ::
        chunked ((x :: xs).drop (BatchOptions.defaults.merged ov).batch_size)
          (BatchOptions.defaults.merged ov).batch_size from
    chunked_eq (BatchOptions.defaults.merged ov).batch_size hbs (x :: xs)]
  rw [hcb]

/-- C3 (amended).  After every item's terminal outcome the totals are updated,
the item is appended, and the callback is invoked with the running
`ProgressSnapshot`; a callback that always succeeds leaves the run's result
untouched.  But a callback exception is not swallowed: it propagates out of
`process_batch`, which then produces no `BatchResult` and no abort error —
only the callback failure. -/
theorem claim3_callback_failure :
    (∀ (proc : Nat → α → Nat → Except String β) (ov : Option BatchOverrides)
      (f : ProgressSnapshot → Except String Unit) (sched : Nat → List Nat)
      (items : List α), (∀ s, f s = Except.ok ()) → items ≠ [] →
      (BatchOptions.defaults.merged ov).continue_on_error = true →
      process_batch proc ov (some f) sched items =
        ⟨.ok ⟨leftsOf (outcomesOf proc (BatchOptions.defaults.merged ov).retry_count
                (items.enumFrom 0)),
              rightsOf (outcomesOf proc (BatchOptions.defaults.merged ov).retry_count
                (items.enumFrom 0)),
              ⟨(leftsOf (outcomesOf proc (BatchOptions.defaults.merged ov).retry_count
                  (items.enumFrom 0))).length,
               (rightsOf (outcomesOf proc (BatchOptions.defaults.merged ov).retry_count
                  (items.enumFrom 0))).length,
               items.length⟩⟩,
          logsOf proc (BatchOptions.defaults.merged ov).retry_count (items.enumFrom 0),
          snapshotsFrom items.length 0 0 0
            (outcomesOf proc (BatchOptions.defaults.merged ov).retry_count
              (items.enumFrom 0))⟩) ∧
    (∀ (proc : Nat → α → Nat → Except String β) (ov : Option BatchOverrides)
      (f : ProgressSnapshot → Except String Unit) (m : String) (sched : Nat → List Nat)
      (items : List α), (∀ s, f s = .error m) → items ≠ [] →
      (process_batch proc ov (some f) sched items).outcome =
        .error (.callbackFailure m)) := by
  constructor
  · intro proc ov f sched items hok hne hcoe
    have hcb : cbOk (some f) := by
      intro g s h
      injection h with h2
      subst h2
      exact hok s
    exact process_batch_true_cbok proc ov (some f) hcb sched items hne hcoe
  · intro proc ov f m sched items hf hne
    exact process_batch_cbfail proc ov f m hf sched items hne

/-- Witness for C3: the good/bad run with a succeeding callback produces the
full snapshot trace, and the same run with a raising callback aborts with the
callback's exception. -/
theorem claim3_callback_failure_witness :
    process_batch (fun _ item _ => if item == "bad" then Except.error "boom"
        else Except.ok item)
      (some { retry_count := some 0, concurrency := some 1 })
      (some fun _ => Except.ok ()) (fun _ => []) ["good", "bad"] =
      ⟨.ok ⟨["good"], [⟨"bad", "boom", 1⟩], ⟨1, 1, 2⟩⟩, [(0, 0), (1, 0)],
        [⟨1, 1, 0, 2⟩, ⟨2, 1, 1, 2⟩]⟩ ∧
    (process_batch (fun _ item _ => if item == "bad" then Except.error "boom"
        else Except.ok item)
      (some { retry_count := some 0, concurrency := some 1 })
      (some fun _ => Except.error "cb boom") (fun _ => [])
      ["good", "bad"]).outcome = .error (.callbackFailure "cb boom") := by
  constructor
  · have h := claim3_callback_failure.1
      (fun _ item _ => if item == "bad" then Except.error "boom" else Except.ok item)
      (some { retry_count := some 0, concurrency := some 1 })
      (fun _ => Except.ok ()) (fun _ => []) ["good", "bad"]
      (fun _ => rfl) (by simp) (by decide)
    rw [h]
    rfl
  · exact claim3_callback_failure.2
      (fun _ item _ => if item == "bad" then Except.error "boom" else Except.ok item)
      (some { retry_count := some 0, concurrency := some 1 })
      (fun _ => Except.error "cb boom") "cb boom" (fun _ => []) ["good", "bad"]
      (fun _ => rfl) (by simp)

/-- The completion schedule seen by `gather` never influences the chunk
loop. -/
theorem processChunks_sched_irrel (proc : Nat → α → Nat → Except String β)
    (cb : Option (ProgressSnapshot → Except String Unit)) (total : Nat) (coe : Bool)
    (rc bs : Nat) (chunks : List (List α)) :
    ∀ (sched sched' : Nat → List Nat) (bIdx bstart : Nat) (st : LoopState α β),
      processChunks proc cb total coe rc bs sched chunks bIdx bstart st =
        processChunks proc cb total coe rc bs sched' chunks bIdx bstart st := by
  induction chunks with
  | nil => intro sched sched' bIdx bstart st; rfl
  | cons c rest ih =>
    intro sched sched' bIdx bstart st
    simp only [processChunks]
    split
    · rfl
    · exact ih sched sched' (bIdx + 1) (bstart + bs) _

/-- `process_batch` is independent of the completion schedule: `asyncio.gather`
hands the outcomes back in task order no matter when each task finished. -/
theorem process_batch_sched_irrel (proc : Nat → α → Nat → Except String β)
    (ov : Option BatchOverrides) (cb : Option (ProgressSnapshot → Except String Unit))
    (sched sched' : Nat → List Nat) (items : List α) :
    process_batch proc ov cb sched items = process_batch proc ov cb sched' items := by
  cases items with
  | nil => rfl
  | cons x xs =>
    simp only [process_batch]
    rw [processChunks_sched_irrel proc cb (x :: xs).length
      (BatchOptions.defaults.merged ov).continue_on_error
      (BatchOptions.defaults.merged ov).retry_count
      (BatchOptions.defaults.merged ov).batch_size
      (chunked (x :: xs) (BatchOptions.defaults.merged ov).batch_size)
      sched sched' 1 0 initState]

/-- The indices of the failure records are the indices of the failing entries,
in input order. -/
theorem rightsOf_outcomesOf_index (proc : Nat → α → Nat → Except String β) (rc : Nat) :
    ∀ (entries : List (Nat × α)),
      (rightsOf (outcomesOf proc rc entries)).map FailureRecord.index =
        (entries.filter fun p => (run_single proc rc p.1 p.2).1.isRight).map Prod.fst := by
  intro entries
  induction entries with
  | nil => rfl
  | cons p rest ih =>
    have hout : outcomesOf proc rc (p :: rest) =
        (run_single proc rc p.1 p.2).1 :: outcomesOf proc rc rest := rfl
    rcases h : (run_single proc rc p.1 p.2).1 with v | rec
    · rw [hout, h, rightsOf_cons_inl, ih, List.filter_cons]
      simp [h]
    · rw [hout, h, rightsOf_cons_inr, List.filter_cons]
      simp only [h, List.map_cons]
      rw [run_single_fail_index proc rc p.1 p.2 rec h, ih]
      simp

/-- C7 (amended).  The order of entries in `successful` and `failed` is the
input order, not the completion order: the run is entirely independent of the
completion schedule, the `failed` indices are the failing input indices in
increasing input order, and `successful` is the in-order projection of the
per-item outcomes. -/
theorem claim7_completion_order (proc : Nat → α → Nat → Except String β)
    (ov : Option BatchOverrides) (cb : Option (ProgressSnapshot → Except String Unit))
    (sched sched' : Nat → List Nat) (items : List α) (hlen : 1 < items.length)
    (hconc : 1 < (BatchOptions.defaults.merged ov).concurrency)
    (hcoe : (BatchOptions.defaults.merged ov).continue_on_error = true) :
    process_batch proc ov cb sched items = process_batch proc ov cb sched' items ∧
    ∀ r, (process_batch proc ov cb sched items).outcome = .ok r →
      r.failed.map FailureRecord.index =
        ((items.enumFrom 0).filter fun p =>
          (run_single proc (BatchOptions.defaults.merged ov).retry_count p.1 p.2).1.isRight).map
            Prod.fst ∧
      r.successful = leftsOf (outcomesOf proc (BatchOptions.defaults.merged ov).retry_count
        (items.enumFrom 0)) := by
  constructor
  · exact process_batch_sched_irrel proc ov cb sched sched' items
  · intro r hr
    have hne : items ≠ [] := by
      intro h
      rw [h] at hlen
      simp at hlen
    rcases process_batch_true proc ov cb sched items hne hcoe with hL | hR
    · obtain ⟨m, hm⟩ := hL
      rw [hm] at hr
      cases hr
    · rw [hR] at hr
      simp only at hr
      cases hr
      exact ⟨rightsOf_outcomesOf_index proc (BatchOptions.defaults.merged ov).retry_count
        (items.enumFrom 0), rfl⟩

/-- Witness for C7's amended statement: two items, `concurrency = 2`. -/
theorem claim7_completion_order_witness :
    process_batch (fun _ _ _ => (Except.error "boom" : Except String String))
        (some { retry_count := some 0, concurrency := some 2 }) none
        (fun _ => [1, 0]) ["a", "b"] =
      process_batch (fun _ _ _ => (Except.error "boom" : Except String String))
        (some { retry_count := some 0, concurrency := some 2 }) none
        (fun _ => [0, 1]) ["a", "b"] ∧
    ∀ r, (process_batch (fun _ _ _ => (Except.error "boom" : Except String String))
        (some { retry_count := some 0, concurrency := some 2 }) none
        (fun _ => [1, 0]) ["a", "b"]).outcome = .ok r →
      r.failed.map FailureRecord.index =
        (((["a", "b"] : List String).enumFrom 0).filter fun p =>
          (run_single (fun _ _ _ => (Except.error "boom" : Except String String))
            (BatchOptions.defaults.merged
              (some { retry_count := some 0, concurrency := some 2 })).retry_count
            p.1 p.2).1.isRight).map Prod.fst ∧
      r.successful = leftsOf (outcomesOf
        (fun _ _ _ => (Except.error "boom" : Except String String))
        (BatchOptions.defaults.merged
          (some { retry_count := some 0, concurrency := some 2 })).retry_count
        ((["a", "b"] : List String).enumFrom 0)) :=
  claim7_completion_order (fun _ _ _ => (Except.error "boom" : Except String String))
    (some { retry_count := some 0, concurrency := some 2 }) none
    (fun _ => [1, 0]) (fun _ => [0, 1]) ["a", "b"] (by decide) (by decide) (by decide)

/-- C7 as stated is false: with completion schedule `[1, 0]` (the second item
finishes first) the failure records still appear in input order `[0, 1]`, not
completion order `[1, 0]`. -/
theorem claim7_counterexample :
    (process_batch (fun _ _ _ => (Except.error "boom" : Except String String))
        (some { retry_count := some 0, concurrency := some 2 }) none
        (fun _ => [1, 0]) ["a", "b"]).outcome =
      .ok ⟨[], [⟨"a", "boom", 0⟩, ⟨"b", "boom", 1⟩], ⟨0, 2, 2⟩⟩ ∧
    [⟨"a", "boom", 0⟩, ⟨"b", "boom", 1⟩].map FailureRecord.index = [0, 1] ∧
    ([0, 1] : List Nat) ≠ [1, 0] := by
  refine ⟨rfl, rfl, by decide⟩

/-- Positional form of `processOutcomes_none_left`. -/
theorem processOutcomes_none_left_pos (total : Nat) (coe : Bool)
    (outs : List (β ⊕ FailureRecord α)) (su : List β) (fa : List (FailureRecord α))
    (sc fl co : Nat) (inv : List (Nat × Nat)) (sn : List ProgressSnapshot)
    (hall : ∀ o ∈ outs, o.isLeft = true) :
    processOutcomes none total coe outs ⟨su, fa, sc, fl, co, false, none, inv, sn⟩ =
      ⟨su ++ leftsOf outs, fa, sc + outs.length, fl, co + outs.length, false, none,
        inv, sn⟩ :=
  processOutcomes_none_left total coe outs ⟨su, fa, sc, fl, co, false, none, inv, sn⟩
    rfl rfl hall

/-- Positional form of `processOutcomes_none_halt`. -/
theorem processOutcomes_none_halt_pos (total : Nat)
    (pre post : List (β ⊕ FailureRecord α)) (g : FailureRecord α) (su : List β)
    (fa : List (FailureRecord α)) (sc fl co : Nat) (inv : List (Nat × Nat))
    (sn : List ProgressSnapshot) (hall : ∀ o ∈ pre, o.isLeft = true) :
    processOutcomes none total false (pre ++ .inr g :: post)
        ⟨su, fa, sc, fl, co, false, none, inv, sn⟩ =
      ⟨su ++ leftsOf pre, fa ++ [g], sc + pre.length, fl + 1, co + pre.length + 1,
        true, none, inv, sn⟩ :=
  processOutcomes_none_halt total pre post g ⟨su, fa, sc, fl, co, false, none, inv, sn⟩
    rfl rfl hall

/-- Membership in the enumeration of a take is membership in the enumeration
of the whole list. -/
theorem mem_enumFrom_take {l : List α} {m n : Nat} {p : Nat × α}
    (hp : p ∈ (l.take m).enumFrom n) : p ∈ l.enumFrom n := by
  have h1 : p ∈ (l.take m).enumFrom n ++ (l.drop m).enumFrom (n + (l.take m).length) :=
    List.mem_append_left _ hp
  rw [← List.enumFrom_append, List.take_append_drop m l] at h1
  exact h1

/-- Membership in the enumeration of a drop (starting at the matching offset)
is membership in the enumeration of the whole list. -/
theorem mem_enumFrom_drop {l : List α} {m n : Nat} (hm : m ≤ l.length) {p : Nat × α}
    (hp : p ∈ (l.drop m).enumFrom (n + m)) : p ∈ l.enumFrom n := by
  have hlen : (l.take m).length = m := by simp [List.length_take]; omega
  have h1 : p ∈ (l.take m).enumFrom n ++ (l.drop m).enumFrom (n + (l.take m).length) := by
    rw [hlen]
    exact List.mem_append_right _ hp
  rw [← List.enumFrom_append, List.take_append_drop m l] at h1
  exact h1

/-- Chunk-loop halt characterisation, with no callback and
`continue_on_error = false`: when the first failing item of the remaining
input sits at global index `k`, the loop records the successes before `k` and
the single failure record, halts, and has dispatched exactly the chunks up to
and including the one containing `k`. -/
theorem processChunks_halt (proc : Nat → α → Nat → Except String β)
    (rc size total : Nat) (hs : 0 < size) (k : Nat) (rec : FailureRecord α)
    (sched : Nat → List Nat) :
    ∀ (fuel : Nat) (rest : List α) (bIdx bstart : Nat) (su : List β)
      (fa : List (FailureRecord α)) (sc fl co : Nat) (inv : List (Nat × Nat))
      (sn : List ProgressSnapshot) (c : Nat),
      rest.length ≤ fuel →
      bstart ≤ k → k < bstart + rest.length →
      bstart = size * c →
      (∀ p ∈ rest.enumFrom bstart, p.1 < k →
        (run_single proc rc p.1 p.2).1.isLeft = true) →
      (∀ p ∈ rest.enumFrom bstart, p.1 = k →
        (run_single proc rc p.1 p.2).1 = .inr rec) →
      processChunks proc none total false rc size sched (chunked rest size) bIdx bstart
          ⟨su, fa, sc, fl, co, false, none, inv, sn⟩ =
        ⟨su ++ leftsOf (outcomesOf proc rc ((rest.take (k - bstart)).enumFrom bstart)),
          fa ++ [rec], sc + (k - bstart), fl + 1, co + (k - bstart) + 1, true, none,
          inv ++ logsOf proc rc
            ((rest.take (size * (k / size) + size - bstart)).enumFrom bstart),
          sn⟩ := by
  intro fuel
  induction fuel with
  | zero =>
    intro rest bIdx bstart su fa sc fl co inv sn c hfuel hbk hkr hc hsucc hfail
    have : rest = [] := List.eq_nil_of_length_eq_zero (Nat.le_zero.mp hfuel)
    subst this
    simp at hkr
    omega
  | succ fuel ih =>
    intro rest bIdx bstart su fa sc fl co inv sn c hfuel hbk hkr hc hsucc hfail
    cases rest with
    | nil => simp at hkr; omega
    | cons x xs =>
      simp only [List.length_cons] at hfuel hkr
      rw [show chunked (x :: xs) size =
          (x :: xs).take size :: chunked ((x :: xs).drop size) size from
        chunked_eq size hs (x :: xs)]
      rw [processChunks_cons_go]
      by_cases hcase : bstart + size ≤ k
      · -- the failure lies beyond this chunk: this chunk is fully successful
        have hsz : size ≤ xs.length + 1 := by omega
        have hsz2 : size ≤ (x :: xs).length := by
          simp only [List.length_cons]
          omega
        have hlen : ((x :: xs).take size).length = size := by
          rw [List.length_take, List.length_cons]
          omega
        have hall : ∀ o ∈ outcomesOf proc rc (((x :: xs).take size).enumFrom bstart),
            o.isLeft = true := by
          intro o ho
          rw [outcomesOf, List.mem_map] at ho
          obtain ⟨p, hp, rfl⟩ := ho
          apply hsucc p (mem_enumFrom_take hp)
          have := List.fst_lt_add_of_mem_enumFrom hp
          rw [hlen] at this
          omega
        rw [processOutcomes_none_left_pos total false _ su fa sc fl co
          (inv ++ logsOf proc rc (((x :: xs).take size).enumFrom bstart)) sn hall]
        have houtlen : (outcomesOf proc rc (((x :: xs).take size).enumFrom bstart)).length
            = size := by
          simp only [outcomesOf, List.length_map, List.enumFrom_length]
          exact hlen
        rw [ih ((x :: xs).drop size) (bIdx + 1) (bstart + size)
          (su ++ leftsOf (outcomesOf proc rc (((x :: xs).take size).enumFrom bstart)))
          fa
          (sc + (outcomesOf proc rc (((x :: xs).take size).enumFrom bstart)).length)
          fl
          (co + (outcomesOf proc rc (((x :: xs).take size).enumFrom bstart)).length)
          (inv ++ logsOf proc rc (((x :: xs).take size).enumFrom bstart)) sn (c + 1)
          (by rw [List.length_drop, List.length_cons]; omega)
          hcase
          (by rw [List.length_drop, List.length_cons]; omega)
          (by rw [hc]; ring)
          (fun p hp h2 => hsucc p (mem_enumFrom_drop hsz2 hp) h2)
          (fun p hp h2 => hfail p (mem_enumFrom_drop hsz2 hp) h2)]
        have hd : k < size * (k / size) + size := by
          have h1 := Nat.div_add_mod k size
          have h2 := Nat.mod_lt k hs
          omega
        have htk : (x :: xs).take (k - bstart) =
            (x :: xs).take size ++ ((x :: xs).drop size).take (k - (bstart + size)) := by
          have e : k - bstart = size + (k - (bstart + size)) := by omega
          rw [e, List.take_add]
        have htl : (x :: xs).take (size * (k / size) + size - bstart) =
            (x :: xs).take size ++
              ((x :: xs).drop size).take (size * (k / size) + size - (bstart + size)) := by
          have e : size * (k / size) + size - bstart =
              size + (size * (k / size) + size - (bstart + size)) := by omega
          rw [e, List.take_add]
        rw [htk, htl, List.enumFrom_append, List.enumFrom_append, hlen,
          outcomesOf_append, leftsOf_append, logsOf_append]
        simp only [List.append_assoc, houtlen, LoopState.mk.injEq]
        repeat' apply And.intro
        all_goals first | rfl | omega | trivial
      · -- the failure lies inside this chunk
        push_neg at hcase
        have hpos : k - bstart < size := by omega
        have hposr : k - bstart < (x :: xs).length := by
          simp only [List.length_cons]
          omega
        have hchlen : k - bstart < ((x :: xs).take size).length := by
          rw [List.length_take, List.length_cons]
          omega
        have hmineq : min (k - bstart) size = k - bstart := by omega
        have htake : ((x :: xs).take size).take (k - bstart) = (x :: xs).take (k - bstart) := by
          rw [List.take_take, hmineq]
        have hsplit : (x :: xs).take size =
            (x :: xs).take (k - bstart) ++
              ((x :: xs).get ⟨k - bstart, hposr⟩ ::
                ((x :: xs).take size).drop (k - bstart + 1)) := by
          conv_lhs => rw [← List.take_append_drop (k - bstart) ((x :: xs).take size)]
          rw [htake]
          congr 1
          rw [List.drop_eq_getElem_cons hchlen]
          congr 1
          exact List.getElem_take (x :: xs)
        have htklen : ((x :: xs).take (k - bstart)).length = k - bstart := by
          rw [List.length_take, List.length_cons]
          omega
        have henum : ((x :: xs).take size).enumFrom bstart =
            (((x :: xs).take (k - bstart)).enumFrom bstart) ++
              ((bstart + (k - bstart), (x :: xs).get ⟨k - bstart, hposr⟩) ::
                (((x :: xs).take size).drop (k - bstart + 1)).enumFrom
                  (bstart + (k - bstart) + 1)) := by
          conv_lhs => rw [hsplit]
          rw [List.enumFrom_append, htklen]
          rfl
        have hbk2 : bstart + (k - bstart) = k := by omega
        have hmemk : ((k : Nat), (x :: xs).get ⟨k - bstart, hposr⟩) ∈ (x :: xs).enumFrom bstart := by
          have h0 := (List.mk_add_mem_enumFrom_iff_getElem?
            (n := bstart) (i := k - bstart) (x := (x :: xs).get ⟨k - bstart, hposr⟩)
            (l := x :: xs)).mpr (by simp [List.getElem?_eq_getElem hposr])
          rw [hbk2] at h0
          exact h0
        have hfk : (run_single proc rc k ((x :: xs).get ⟨k - bstart, hposr⟩)).1 = .inr rec :=
          hfail _ hmemk rfl
        have houts : outcomesOf proc rc (((x :: xs).take size).enumFrom bstart) =
            outcomesOf proc rc (((x :: xs).take (k - bstart)).enumFrom bstart) ++
              .inr rec :: outcomesOf proc rc
                ((((x :: xs).take size).drop (k - bstart + 1)).enumFrom (k + 1)) := by
          rw [henum, outcomesOf_append, hbk2]
          congr 1
          show (run_single proc rc k ((x :: xs).get ⟨k - bstart, hposr⟩)).1 ::
              outcomesOf proc rc
                ((((x :: xs).take size).drop (k - bstart + 1)).enumFrom (k + 1)) = _
          rw [hfk]
        have hall : ∀ o ∈ outcomesOf proc rc (((x :: xs).take (k - bstart)).enumFrom bstart),
            o.isLeft = true := by
          intro o ho
          rw [outcomesOf, List.mem_map] at ho
          obtain ⟨p, hp, rfl⟩ := ho
          apply hsucc p (mem_enumFrom_take hp)
          have h1 := List.fst_lt_add_of_mem_enumFrom hp
          rw [htklen] at h1
          omega
        rw [houts]
        rw [processOutcomes_none_halt_pos total _ _ rec su fa sc fl co
          (inv ++ logsOf proc rc (((x :: xs).take size).enumFrom bstart)) sn hall]
        rw [processChunks_stopped _ _ _ _ _ _ _ _ _ _ _ (by simp)]
        have houtlen2 :
            (outcomesOf proc rc (((x :: xs).take (k - bstart)).enumFrom bstart)).length
            = k - bstart := by
          simp only [outcomesOf, List.length_map, List.enumFrom_length]
          exact htklen
        have hdiv : k / size = c := by
          have e : k = size * c + (k - bstart) := by omega
          rw [e, Nat.mul_add_div hs, Nat.div_eq_of_lt hpos]
          omega
        have hlog : size * (k / size) + size - bstart = size := by
          rw [hdiv]
          omega
        rw [houtlen2, hlog]

/-- Top-level halt characterisation: with no callback,
`continue_on_error = false`, and the first failing item at global index `k`,
`process_batch` raises `BATCH_ABORTED` carrying exactly the successes of the
items before `k` and the single failure record of item `k`, while having
dispatched every item of every chunk up to and including the one containing
`k` — and nothing beyond. -/
theorem process_batch_halt (proc : Nat → α → Nat → Except String β)
    (ov : Option BatchOverrides) (sched : Nat → List Nat) (items : List α)
    (k : Nat) (rec : FailureRecord α) (hk : k < items.length)
    (hcoe : (BatchOptions.defaults.merged ov).continue_on_error = false)
    (hsucc : ∀ p ∈ items.enumFrom 0, p.1 < k →
      (run_single proc (BatchOptions.defaults.merged ov).retry_count p.1 p.2).1.isLeft = true)
    (hfail : ∀ p ∈ items.enumFrom 0, p.1 = k →
      (run_single proc (BatchOptions.defaults.merged ov).retry_count p.1 p.2).1 = .inr rec) :
    process_batch proc ov none sched items =
      ⟨.error (.batchAborted [rec]
          (leftsOf (outcomesOf proc (BatchOptions.defaults.merged ov).retry_count
            ((items.take k).enumFrom 0)))),
        logsOf proc (BatchOptions.defaults.merged ov).retry_count
          ((items.take ((BatchOptions.defaults.merged ov).batch_size *
              (k / (BatchOptions.defaults.merged ov).batch_size) +
            (BatchOptions.defaults.merged ov).batch_size)).enumFrom 0),
        []⟩ := by
  obtain ⟨x, xs, rfl⟩ : ∃ x xs, items = x :: xs := by
    cases items with
    | nil => simp at hk
    | cons x xs => exact ⟨x, xs, rfl⟩
  have hhalt := processChunks_halt proc (BatchOptions.defaults.merged ov).retry_count
    (BatchOptions.defaults.merged ov).batch_size (x :: xs).length
    (merged_batch_size_pos ov) k rec sched (x :: xs).length (x :: xs) 1 0
    [] [] 0 0 0 [] [] 0 (Nat.le_refl _) (Nat.zero_le _) (by simpa using hk)
    (by ring) hsucc hfail
  simp only [process_batch, initState, hcoe]
  rw [hhalt]
  simp

/-- The retry loop's first logged invocation, starting at attempt `a`, is
`(index, a)`. -/
theorem runSingleGo_log_self (proc : Nat → α → Nat → Except String β) (i : Nat) (x : α)
    (r a : Nat) : (i, a) ∈ (runSingleGo proc i x a r).2 := by
  cases r with
  | zero =>
    rcases hp : proc i x a with m | v <;> simp [runSingleGo, hp]
  | succ r =>
    rcases hp : proc i x a with m | v <;> simp [runSingleGo, hp]

/-- Every entry in the retry loop's invocation trace carries the item's own
index. -/
theorem runSingleGo_log_fst (proc : Nat → α → Nat → Except String β) (i : Nat) (x : α) :
    ∀ (r a : Nat), ∀ q ∈ (runSingleGo proc i x a r).2, q.1 = i := by
  intro r
  induction r with
  | zero =>
    intro a q hq
    rcases hp : proc i x a with m | v <;> simp [runSingleGo, hp] at hq <;> simp [hq]
  | succ r ih =>
    intro a q hq
    rcases hp : proc i x a with m | v
    · simp only [runSingleGo, hp] at hq
      rcases List.mem_cons.mp hq with h | h
      · simp [h]
      · exact ih (a + 1) q h
    · simp [runSingleGo, hp] at hq
      simp [hq]

/-- An enumerated entry with index below the cut survives taking the prefix. -/
theorem mem_enum_take_of_lt (l : List α) (d : Nat) (p : Nat × α)
    (hp : p ∈ l.enumFrom 0) (hd : p.1 < d) : p ∈ (l.take d).enumFrom 0 := by
  obtain ⟨i, x⟩ := p
  rw [List.mk_mem_enumFrom_iff_le_and_getElem?_sub] at hp ⊢
  refine ⟨Nat.zero_le _, ?_⟩
  simp only [Nat.sub_zero] at hp ⊢
  rw [List.getElem?_take_of_lt hd]
  exact hp.2

/-- C10.  With `continue_on_error = false` and the first failure at index `k`,
the processor is nevertheless invoked at least once on every item of every
chunk up to and including the failing one — all items of the failing chunk are
dispatched before any outcome is inspected, including the items whose
outcomes end up recorded in neither list — and no item of any later chunk is
ever dispatched. -/
theorem claim10_failing_chunk_dispatch (proc : Nat → α → Nat → Except String β)
    (ov : Option BatchOverrides) (sched : Nat → List Nat) (items : List α)
    (k : Nat) (rec : FailureRecord α) (hk : k < items.length)
    (hcoe : (BatchOptions.defaults.merged ov).continue_on_error = false)
    (hsucc : ∀ p ∈ items.enumFrom 0, p.1 < k →
      (run_single proc (BatchOptions.defaults.merged ov).retry_count p.1 p.2).1.isLeft = true)
    (hfail : ∀ p ∈ items.enumFrom 0, p.1 = k →
      (run_single proc (BatchOptions.defaults.merged ov).retry_count p.1 p.2).1 = .inr rec) :
    (∀ p ∈ items.enumFrom 0,
      p.1 < (BatchOptions.defaults.merged ov).batch_size *
          (k / (BatchOptions.defaults.merged ov).batch_size) +
        (BatchOptions.defaults.merged ov).batch_size →
      (p.1, 0) ∈ (process_batch proc ov none sched items).invocations) ∧
    (∀ q ∈ (process_batch proc ov none sched items).invocations,
      q.1 < (BatchOptions.defaults.merged ov).batch_size *
          (k / (BatchOptions.defaults.merged ov).batch_size) +
        (BatchOptions.defaults.merged ov).batch_size) := by
  rw [process_batch_halt proc ov sched items k rec hk hcoe hsucc hfail]
  constructor
  · intro p hp hpd
    have hmem := mem_enum_take_of_lt items _ p hp hpd
    show (p.1, 0) ∈ logsOf proc (BatchOptions.defaults.merged ov).retry_count _
    rw [logsOf, List.mem_flatten]
    refine ⟨(run_single proc (BatchOptions.defaults.merged ov).retry_count p.1 p.2).2,
      List.mem_map_of_mem _ hmem, ?_⟩
    exact runSingleGo_log_self proc p.1 p.2 (BatchOptions.defaults.merged ov).retry_count 0
  · intro q hq
    have hq2 : q ∈ logsOf proc (BatchOptions.defaults.merged ov).retry_count
        ((items.take ((BatchOptions.defaults.merged ov).batch_size *
            (k / (BatchOptions.defaults.merged ov).batch_size) +
          (BatchOptions.defaults.merged ov).batch_size)).enumFrom 0) := hq
    rw [logsOf, List.mem_flatten] at hq2
    obtain ⟨l, hl, hql⟩ := hq2
    rw [List.mem_map] at hl
    obtain ⟨p, hpmem, rfl⟩ := hl
    have hfst := runSingleGo_log_fst proc p.1 p.2
      (BatchOptions.defaults.merged ov).retry_count 0 q hql
    have hlt := List.fst_lt_add_of_mem_enumFrom hpmem
    rw [hfst]
    have : (items.take ((BatchOptions.defaults.merged ov).batch_size *
        (k / (BatchOptions.defaults.merged ov).batch_size) +
      (BatchOptions.defaults.merged ov).batch_size)).length ≤
        (BatchOptions.defaults.merged ov).batch_size *
          (k / (BatchOptions.defaults.merged ov).batch_size) +
        (BatchOptions.defaults.merged ov).batch_size := by
      rw [List.length_take]
      omega
    omega

/-- C1 (amended).  When `continue_on_error` is false and the first failure is
item `k`, the raised `BATCH_ABORTED` error carries exactly the outcomes of
the items preceding `k` (their successes, in input order) plus the failure
record of item `k`; every item of every chunk up to and including the failing
one is dispatched — already-in-flight items of that chunk are allowed to
finish, as the invocation trace shows — but the outcomes of the failing
chunk's items after `k` are discarded rather than folded into the attached
partial result, and later chunks are never started. -/
theorem claim1_abort_records (proc : Nat → α → Nat → Except String β)
    (ov : Option BatchOverrides) (sched : Nat → List Nat) (items : List α)
    (k : Nat) (rec : FailureRecord α) (hk : k < items.length)
    (hcoe : (BatchOptions.defaults.merged ov).continue_on_error = false)
    (hsucc : ∀ p ∈ items.enumFrom 0, p.1 < k →
      (run_single proc (BatchOptions.defaults.merged ov).retry_count p.1 p.2).1.isLeft = true)
    (hfail : ∀ p ∈ items.enumFrom 0, p.1 = k →
      (run_single proc (BatchOptions.defaults.merged ov).retry_count p.1 p.2).1 = .inr rec) :
    process_batch proc ov none sched items =
      ⟨.error (.batchAborted [rec]
          (leftsOf (outcomesOf proc (BatchOptions.defaults.merged ov).retry_count
            ((items.take k).enumFrom 0)))),
        logsOf proc (BatchOptions.defaults.merged ov).retry_count
          ((items.take ((BatchOptions.defaults.merged ov).batch_size *
              (k / (BatchOptions.defaults.merged ov).batch_size) +
            (BatchOptions.defaults.merged ov).batch_size)).enumFrom 0),
        []⟩ :=
  process_batch_halt proc ov sched items k rec hk hcoe hsucc hfail

/-- Witness for the amended C1: three items, `batch_size = 2`, first failure
at index 1. -/
theorem claim1_abort_records_witness :
    process_batch (fun i _ _ => if i == 1 then Except.error "boom" else Except.ok "v")
        (some ⟨some 2, none, some 0, none, none, some false⟩) none (fun _ => [])
        ["a", "b", "c"] =
      ⟨.error (.batchAborted [⟨"b", "boom", 1⟩]
          (leftsOf (outcomesOf
            (fun i _ _ => if i == 1 then Except.error "boom" else Except.ok "v")
            (BatchOptions.defaults.merged
              (some ⟨some 2, none, some 0, none, none, some false⟩)).retry_count
            (((["a", "b", "c"] : List String).take 1).enumFrom 0)))),
        logsOf (fun i _ _ => if i == 1 then Except.error "boom" else Except.ok "v")
          (BatchOptions.defaults.merged
            (some ⟨some 2, none, some 0, none, none, some false⟩)).retry_count
          (((["a", "b", "c"] : List String).take
            ((BatchOptions.defaults.merged
                (some ⟨some 2, none, some 0, none, none, some false⟩)).batch_size *
              (1 / (BatchOptions.defaults.merged
                (some ⟨some 2, none, some 0, none, none, some false⟩)).batch_size) +
              (BatchOptions.defaults.merged
                (some ⟨some 2, none, some 0, none, none, some false⟩)).batch_size)).enumFrom 0),
        []⟩ :=
  claim1_abort_records (fun i _ _ => if i == 1 then Except.error "boom" else Except.ok "v")
    (some ⟨some 2, none, some 0, none, none, some false⟩) (fun _ => [])
    ["a", "b", "c"] 1 ⟨"b", "boom", 1⟩ (by decide) (by decide) (by decide) (by decide)

/-- C1 as stated is refuted: with two items in one chunk, item 0 failing and
item 1 succeeding under `continue_on_error = false`, item 1 is dispatched and
finishes successfully — the trace contains its invocation and its processor
call returns a value — yet the `BATCH_ABORTED` error carries an empty
`successful` list and only item 0's failure record, so the finished item
appears in neither attached list. -/
theorem claim1_counterexample :
    (process_batch (fun i _ _ => if i == 0 then Except.error "boom" else Except.ok "v")
        (some ⟨none, none, some 0, none, none, some false⟩) none (fun _ => [])
        ["a", "b"]).outcome =
      .error (.batchAborted [⟨"a", "boom", 0⟩] ([] : List String)) ∧
    (process_batch (fun i _ _ => if i == 0 then Except.error "boom" else Except.ok "v")
        (some ⟨none, none, some 0, none, none, some false⟩) none (fun _ => [])
        ["a", "b"]).invocations = [(0, 0), (1, 0)] ∧
    (fun (i : Nat) (_ : String) (_ : Nat) =>
      if i == 0 then Except.error "boom" else Except.ok "v") 1 "b" 0 =
        Except.ok ("v" : String) ∧
    ("v" : String) ∉ ([] : List String) :=
  ⟨rfl, rfl, rfl, by simp⟩

/-- Witness for C10 at the same concrete input as C1's witness: items 0 and 1
are both dispatched, item 2 (second chunk) is not. -/
theorem claim10_failing_chunk_dispatch_witness :
    (∀ p ∈ (["a", "b", "c"] : List String).enumFrom 0,
      p.1 < (BatchOptions.defaults.merged
            (some ⟨some 2, none, some 0, none, none, some false⟩)).batch_size *
          (1 / (BatchOptions.defaults.merged
            (some ⟨some 2, none, some 0, none, none, some false⟩)).batch_size) +
        (BatchOptions.defaults.merged
          (some ⟨some 2, none, some 0, none, none, some false⟩)).batch_size →
      (p.1, 0) ∈ (process_batch
        (fun i _ _ => if i == 1 then Except.error "boom" else Except.ok "v")
        (some ⟨some 2, none, some 0, none, none, some false⟩) none (fun _ => [])
        ["a", "b", "c"]).invocations) ∧
    (∀ q ∈ (process_batch
        (fun i _ _ => if i == 1 then Except.error "boom" else Except.ok "v")
        (some ⟨some 2, none, some 0, none, none, some false⟩) none (fun _ => [])
        ["a", "b", "c"]).invocations,
      q.1 < (BatchOptions.defaults.merged
            (some ⟨some 2, none, some 0, none, none, some false⟩)).batch_size *
          (1 / (BatchOptions.defaults.merged
            (some ⟨some 2, none, some 0, none, none, some false⟩)).batch_size) +
        (BatchOptions.defaults.merged
          (some ⟨some 2, none, some 0, none, none, some false⟩)).batch_size) :=
  claim10_failing_chunk_dispatch
    (fun i _ _ => if i == 1 then Except.error "boom" else Except.ok "v")
    (some ⟨some 2, none, some 0, none, none, some false⟩) (fun _ => [])
    ["a", "b", "c"] 1 ⟨"b", "boom", 1⟩ (by decide) (by decide) (by decide) (by decide)

/-- C2 (amended).  A bulk-create entry with no (truthy) `name`, or more
generally any entry on which `_create_task` raises a structural
`ClickUpServiceError`, is classified `INVALID_PARAMETER` inside the processor
closure — which runs within the coordinator's retry loop.  The error is
therefore retried like any other failure: the item is attempted exactly
`retry_count + 1` times and ends as a failure record carrying the error's
message, while the service call returns normally instead of raising to the
caller.  Only call-level resolution (team, default list) raises before the
retry loop. -/
theorem claim2_structural_error_retried :
    (∀ (rl : String → Except SvcError String)
      (req : String → String → Entry → Except SvcError Val) (e : Entry)
      (dl : Option String) (lid : String),
      resolve_list_for_entry rl e dl = .ok lid →
      ((coalesce_entry_value e ["name"]).map Val.truthy).getD false = false →
      create_task rl req e dl =
        .error ⟨"Task creation entry requires a name field.", "INVALID_PARAMETER"⟩) ∧
    (∀ (et : Except SvcError (Option Int)) (tm : Option Int)
      (rl : String → Except SvcError String)
      (req : String → String → Entry → Except SvcError Val) (e : Entry)
      (dlid dlname dl : Option String) (err : SvcError) (ov : Option BatchOverrides)
      (sched : Nat → List Nat),
      et = .ok tm →
      resolve_default_list rl dlid dlname = .ok dl →
      create_task rl req e dl = .error err →
      (BatchOptions.defaults.merged ov).continue_on_error = true →
      create_bulk_tasks et rl req [e] dlid dlname ov none sched =
        .ok ⟨.ok ⟨[], [⟨e, err.message, 0⟩], ⟨0, 1, 1⟩⟩,
          (List.range ((BatchOptions.defaults.merged ov).retry_count + 1)).map
            fun a => (0, a),
          []⟩) := by
  constructor
  · intro rl req e dl lid hres hname
    simp only [create_task, hres, build_create_payload, hname, Bool.not_false,
      if_true, Bind.bind, Except.bind]
  · intro et tm rl req e dlid dlname dl err ov sched hteam hrdl hct hcoe
    have hfail : ∀ a, (fun (_ : Nat) (entry : Entry) (_ : Nat) =>
        (create_task rl req entry dl).mapError SvcError.message) 0 e a =
        .error err.message := by
      intro a
      simp [hct, Except.mapError]
    have hrun := run_single_allfail
      (fun (_ : Nat) (entry : Entry) (_ : Nat) =>
        (create_task rl req entry dl).mapError SvcError.message)
      (BatchOptions.defaults.merged ov).retry_count 0 e (fun _ => err.message) hfail
    have hpb := process_batch_true_cbok
      (fun (_ : Nat) (entry : Entry) (_ : Nat) =>
        (create_task rl req entry dl).mapError SvcError.message)
      ov none (by intro f s h; cases h) sched [e] (by simp) hcoe
    have houts : outcomesOf
        (fun (_ : Nat) (entry : Entry) (_ : Nat) =>
          (create_task rl req entry dl).mapError SvcError.message)
        (BatchOptions.defaults.merged ov).retry_count (([e] : List Entry).enumFrom 0) =
        [.inr ⟨e, err.message, 0⟩] := by
      show [(run_single (fun (_ : Nat) (entry : Entry) (_ : Nat) =>
          (create_task rl req entry dl).mapError SvcError.message)
        (BatchOptions.defaults.merged ov).retry_count 0 e).1] = _
      rw [hrun]
    have hlogs : logsOf
        (fun (_ : Nat) (entry : Entry) (_ : Nat) =>
          (create_task rl req entry dl).mapError SvcError.message)
        (BatchOptions.defaults.merged ov).retry_count (([e] : List Entry).enumFrom 0) =
        (List.range ((BatchOptions.defaults.merged ov).retry_count + 1)).map
          fun a => (0, a) := by
      show ((run_single (fun (_ : Nat) (entry : Entry) (_ : Nat) =>
          (create_task rl req entry dl).mapError SvcError.message)
        (BatchOptions.defaults.merged ov).retry_count 0 e).2) ++ [].flatten = _
      rw [hrun]
      simp
    rw [houts, hlogs] at hpb
    simp only [create_bulk_tasks, hteam, hrdl, Bind.bind, Except.bind]
    rw [hpb]
    simp only [leftsOf, rightsOf, List.filterMap_cons, List.filterMap_nil, cbTrace_nil,
      Sum.getLeft?_inr, Sum.getRight?_inr, List.length_nil, List.length_cons,
      List.length_singleton]
    rfl

/-- Witness for the amended C2: a name-less entry with a default list and
`retry_count = 1` is classified `INVALID_PARAMETER`, attempted twice, and
returned inside the `failed` list. -/
theorem claim2_structural_error_retried_witness :
    create_task (fun s => Except.ok ("L-" ++ s)) (fun _ _ _ => Except.ok (Val.vstr "resp"))
        [("description", Val.vstr "x")] (some "D") =
      .error ⟨"Task creation entry requires a name field.", "INVALID_PARAMETER"⟩ ∧
    create_bulk_tasks (.ok none) (fun s => Except.ok ("L-" ++ s))
        (fun _ _ _ => Except.ok (Val.vstr "resp")) [[("description", Val.vstr "x")]]
        (some "D") none (some ⟨none, none, some 1, none, none, none⟩) none (fun _ => []) =
      .ok ⟨.ok ⟨[], [⟨[("description", Val.vstr "x")],
          "Task creation entry requires a name field.", 0⟩], ⟨0, 1, 1⟩⟩,
        (List.range ((BatchOptions.defaults.merged
          (some ⟨none, none, some 1, none, none, none⟩)).retry_count + 1)).map
            fun a => (0, a),
        []⟩ :=
  ⟨claim2_structural_error_retried.1 (fun s => Except.ok ("L-" ++ s))
      (fun _ _ _ => Except.ok (Val.vstr "resp")) [("description", Val.vstr "x")]
      (some "D") "D" (by rfl) (by rfl),
    claim2_structural_error_retried.2 (.ok none) none (fun s => Except.ok ("L-" ++ s))
      (fun _ _ _ => Except.ok (Val.vstr "resp")) [("description", Val.vstr "x")]
      (some "D") none (some "D")
      ⟨"Task creation entry requires a name field.", "INVALID_PARAMETER"⟩
      (some ⟨none, none, some 1, none, none, none⟩) (fun _ => [])
      rfl (by rfl) (by rfl) (by decide)⟩

/-- C2 as stated is refuted at a concrete input: the name-less entry is not
raised to the service caller before the retry loop — with `retry_count = 1`
the processor is invoked twice on it (so the structural error is retried) and
the bulk call returns a normal result whose `failed` list contains the
record. -/
theorem claim2_counterexample :
    create_bulk_tasks (.ok none) (fun s => Except.ok ("L-" ++ s))
        (fun _ _ _ => Except.ok (Val.vstr "resp")) [[("description", Val.vstr "x")]]
        (some "D") none (some ⟨none, none, some 1, none, none, none⟩) none (fun _ => []) =
      .ok ⟨.ok ⟨[], [⟨[("description", Val.vstr "x")],
          "Task creation entry requires a name field.", 0⟩], ⟨0, 1, 1⟩⟩,
        [(0, 0), (0, 1)], []⟩ ∧
    ([(0, 0), (0, 1)] : List (Nat × Nat)).length = 2 :=
  ⟨rfl, rfl⟩

/-- C3 as stated is refuted at a concrete input: when the progress callback
raises, the run is aborted with the callback's exception instead of producing
its `BatchResult`. -/
theorem claim3_counterexample :
    (process_batch (fun _ item _ => if item == "bad" then Except.error "boom"
        else Except.ok item)
      (some ⟨none, some 1, some 0, none, none, none⟩)
      (some fun _ => Except.error "cb boom") (fun _ => [])
      ["good", "bad"]).outcome = .error (.callbackFailure "cb boom") := rfl

end Characterization

end ClickupMCP
